import Mathlib

/-!
Verification of the CanvasETL MCP summarizer: a shallow embedding of the
validator (src/lib/schema.ts), the Markdown formatter (src/lib/format.ts),
the webhook pusher and the JSON-RPC dispatcher (the route handler), with
theorems settling the specification claims about them.
-/

namespace CanvasETL

/-! ## String utilities shared by the embedding

JavaScript strings are modelled by Lean strings; the handful of string
operations the source uses (`replace(/\s+/g, " ")`, `trim`, `join`,
`slice`, template literals) are given direct recursive definitions so
that proofs can proceed by structural induction.
-/

/-- Whitespace as matched by the JavaScript regexp class `\s` and by
`String.prototype.trim` (ASCII whitespace plus the Unicode space
characters). -/
def isJsWs (c : Char) : Bool :=
  c = ' ' || c = '\t' || c = '\n' || c = '\r' || c = '\x0b' || c = '\x0c' ||
  c.toNat = 0x00a0 || c.toNat = 0x1680 ||
  (0x2000 ≤ c.toNat && c.toNat ≤ 0x200a) ||
  c.toNat = 0x2028 || c.toNat = 0x2029 || c.toNat = 0x202f ||
  c.toNat = 0x205f || c.toNat = 0x3000 || c.toNat = 0xfeff

/-- Collapse every run of whitespace to a single space, as
`text.replace(/\s+/g, " ")` does.  The flag records whether the previous
character belonged to a whitespace run. -/
def collapseWsAux : Bool → List Char → List Char
  | _, [] => []
  | prevWs, c :: rest =>
    if isJsWs c then
      if prevWs then collapseWsAux true rest
      else ' ' :: collapseWsAux true rest
    else c :: collapseWsAux false rest

/-- Remove leading and trailing whitespace, as `String.prototype.trim`. -/
def trimChars (cs : List Char) : List Char :=
  ((cs.dropWhile isJsWs).reverse.dropWhile isJsWs).reverse

/-- `clean` from src/lib/format.ts: `text.replace(/\s+/g, " ").trim()`. -/
def clean (text : String) : String :=
  String.mk (trimChars (collapseWsAux false text.data))

/-- `lines.join("\n")` on an array of strings. -/
def joinLines : List String → String
  | [] => ""
  | l :: rest =>
    match rest with
    | [] => l
    | _ :: _ => l ++ "\n" ++ joinLines rest

/-- `parts.join("; ")` and friends: join with an arbitrary separator. -/
def joinWith (sep : String) : List String → String
  | [] => ""
  | l :: rest =>
    match rest with
    | [] => l
    | _ :: _ => l ++ sep ++ joinWith sep rest

/-- Decimal digit character. -/
def digitChar (d : Nat) : Char := Char.ofNat (48 + d)

/-- Fuel-driven decimal rendering of a natural number (most significant
digit first), mirroring how a JavaScript number interpolates into a
template literal. -/
def natCharsAux : Nat → Nat → List Char
  | 0, _ => []
  | fuel + 1, n =>
    if n < 10 then [digitChar n]
    else natCharsAux fuel (n / 10) ++ [digitChar (n % 10)]

/-- Decimal rendering of a natural number as a string. -/
def natStr (n : Nat) : String := String.mk (natCharsAux (n + 1) n)

/-- `s.slice(0, n)`: the first `n` characters of a string. -/
def strTake (s : String) (n : Nat) : String := String.mk (s.data.take n)

/-- Scans a character list for a newline immediately followed by a
backtick, the only way a Markdown fenced code block can open inside the
rendered document. -/
def hasFence : List Char → Bool
  | c1 :: c2 :: rest =>
    if c1 = '\n' && c2 = '`' then true else hasFence (c2 :: rest)
  | _ => false

/-! ## The validated data model (src/lib/schema.ts)

The TypeScript enum fields are literal string unions, so they are
modelled as strings; the validator only ever produces the declared
literals.  Optional fields are `Option`s; arrays with `.default([])`
are plain lists.
-/

/-- An `open_questions` entry. -/
structure OpenQuestion where
  question : String
  owner : Option String
  due : Option String
  deriving Repr, DecidableEq

/-- A `next_steps` entry; `status` is one of `"open"`, `"done"`. -/
structure NextStep where
  action : String
  owner : Option String
  due : Option String
  status : String
  deriving Repr, DecidableEq

/-- A `risks` entry; `severity` is one of `"low"`, `"med"`, `"high"`. -/
structure Risk where
  risk : String
  severity : String
  mitigation : Option String
  deriving Repr, DecidableEq

/-- A `stakeholders` entry. -/
structure Stakeholder where
  name : String
  role : Option String
  influence : Option String
  deriving Repr, DecidableEq

/-- An `evidence` entry; `type` is `"conversation"` or `"canvas"`. -/
structure Evidence where
  type : String
  pointer : String
  excerpt : String
  deriving Repr, DecidableEq

/-- The validated `context` object. -/
structure Context where
  summary : String
  key_points : List String
  open_questions : List OpenQuestion
  next_steps : List NextStep
  risks : List Risk
  stakeholders : List Stakeholder
  evidence : List Evidence
  last_updated : Option String
  deriving Repr, DecidableEq

/-- The validated summarize request (`SummarizeInput` in schema.ts);
`output_format` is one of `"exec_bullets"`, `"se_deal_update"`,
`"memo"`. -/
structure SummarizeInput where
  deal_id : Option String
  deal_name : Option String
  source_canvas_name : Option String
  context : Context
  output_format : String
  doc_title : Option String
  deriving Repr, DecidableEq

/-! ## The formatter (src/lib/format.ts) -/

/-- `MAX_ITEMS` from src/lib/format.ts. -/
def MAX_ITEMS : Nat := 8

/-- `limitItems`: keep at most `MAX_ITEMS` entries and report how many
were dropped. -/
def limitItems {α : Type} (items : List α) : List α × Nat :=
  if items.length ≤ MAX_ITEMS then (items, 0)
  else (items.take MAX_ITEMS, items.length - MAX_ITEMS)

/-- The overflow line `"- ... (+N more)"`. -/
def overflowLine (remaining : Nat) : String :=
  "- ... (+" ++ natStr remaining ++ " more)"

/-- The item lines of `formatList`, before joining. -/
def formatListLines (items : List String) : List String :=
  let limited := limitItems items
  let lines := limited.1.map (fun item => "- " ++ clean item)
  if limited.2 ≠ 0 then lines ++ [overflowLine limited.2] else lines

/-- `formatList` from src/lib/format.ts. -/
def formatList (items : List String) : String :=
  if items.length = 0 then "- None" else joinLines (formatListLines items)

/-- Truthiness of an optional string, as JavaScript `if (x)` sees a
possibly-absent string property. -/
def strTruthy : Option String → Bool
  | none => false
  | some s => !s.isEmpty

/-- The per-item line of `formatQuestions`. -/
def questionLine (item : OpenQuestion) : String :=
  let meta :=
    (match item.owner with
     | some o => if o.isEmpty then [] else ["Owner: " ++ clean o]
     | none => []) ++
    (match item.due with
     | some d => if d.isEmpty then [] else ["Due: " ++ clean d]
     | none => [])
  let metaText := if meta.length ≠ 0 then " (" ++ joinWith "; " meta ++ ")" else ""
  "- " ++ clean item.question ++ metaText

/-- The item lines of `formatQuestions`, before joining. -/
def formatQuestionsLines (items : List OpenQuestion) : List String :=
  let limited := limitItems items
  let lines := limited.1.map questionLine
  if limited.2 ≠ 0 then lines ++ [overflowLine limited.2] else lines

/-- `formatQuestions` from src/lib/format.ts. -/
def formatQuestions (items : List OpenQuestion) : String :=
  if items.length = 0 then "- None" else joinLines (formatQuestionsLines items)

/-- The per-item line of `formatNextSteps`; the status is always shown. -/
def nextStepLine (item : NextStep) : String :=
  let meta :=
    ["Status: " ++ item.status] ++
    (match item.owner with
     | some o => if o.isEmpty then [] else ["Owner: " ++ clean o]
     | none => []) ++
    (match item.due with
     | some d => if d.isEmpty then [] else ["Due: " ++ clean d]
     | none => [])
  "- " ++ clean item.action ++ " (" ++ joinWith "; " meta ++ ")"

/-- The item lines of `formatNextSteps`, before joining. -/
def formatNextStepsLines (items : List NextStep) : List String :=
  let limited := limitItems items
  let lines := limited.1.map nextStepLine
  if limited.2 ≠ 0 then lines ++ [overflowLine limited.2] else lines

/-- `formatNextSteps` from src/lib/format.ts. -/
def formatNextSteps (items : List NextStep) : String :=
  if items.length = 0 then "- None" else joinLines (formatNextStepsLines items)

/-- ASCII upper-casing as `String.prototype.toUpperCase` behaves on the
severity literals. -/
def strToUpper (s : String) : String := String.mk (s.data.map Char.toUpper)

/-- The per-item line of `formatRisks`; the severity token is
upper-cased. -/
def riskLine (item : Risk) : String :=
  let severity := strToUpper item.severity
  let mitigation :=
    match item.mitigation with
    | some m => if m.isEmpty then "" else " (Mitigation: " ++ clean m ++ ")"
    | none => ""
  "- [" ++ severity ++ "] " ++ clean item.risk ++ mitigation

/-- The item lines of `formatRisks`, before joining. -/
def formatRisksLines (items : List Risk) : List String :=
  let limited := limitItems items
  let lines := limited.1.map riskLine
  if limited.2 ≠ 0 then lines ++ [overflowLine limited.2] else lines

/-- `formatRisks` from src/lib/format.ts. -/
def formatRisks (items : List Risk) : String :=
  if items.length = 0 then "- None" else joinLines (formatRisksLines items)

/-- The per-item line of `formatStakeholders`. -/
def stakeholderLine (item : Stakeholder) : String :=
  let meta :=
    (match item.role with
     | some r => if r.isEmpty then [] else ["Role: " ++ clean r]
     | none => []) ++
    (match item.influence with
     | some i => if i.isEmpty then [] else ["Influence: " ++ clean i]
     | none => [])
  let metaText := if meta.length ≠ 0 then " (" ++ joinWith "; " meta ++ ")" else ""
  "- " ++ clean item.name ++ metaText

/-- The item lines of `formatStakeholders`, before joining. -/
def formatStakeholdersLines (items : List Stakeholder) : List String :=
  let limited := limitItems items
  let lines := limited.1.map stakeholderLine
  if limited.2 ≠ 0 then lines ++ [overflowLine limited.2] else lines

/-- `formatStakeholders` from src/lib/format.ts. -/
def formatStakeholders (items : List Stakeholder) : String :=
  if items.length = 0 then "- None" else joinLines (formatStakeholdersLines items)

/-- `deal_name ?? deal_id ?? "Unspecified"`. -/
def dealLabel (x : SummarizeInput) : String :=
  match x.deal_name with
  | some n => n
  | none =>
    match x.deal_id with
    | some i => i
    | none => "Unspecified"

/-- The header lines of the rendered document, before the sections. -/
def headerLines (x : SummarizeInput) : List String :=
  ["## Deal Summary",
   "- Deal: " ++ clean (dealLabel x),
   "- Summary: " ++ clean x.context.summary] ++
  (match x.deal_name, x.deal_id with
   | some dn, some di =>
     if !dn.isEmpty && !di.isEmpty then ["- Deal ID: " ++ clean di] else []
   | _, _ => []) ++
  (match x.source_canvas_name with
   | some sc => if sc.isEmpty then [] else ["- Source Canvas: " ++ clean sc]
   | none => []) ++
  (match x.context.last_updated with
   | some lu => if lu.isEmpty then [] else ["- Last Updated: " ++ clean lu]
   | none => [])

/-! ## The JSON image of a validated request

`formatSummary` appends `JSON.stringify(input, null, 2)` for the
non-`exec_bullets` formats.  The validated request contains only
strings, arrays and plain objects, so its JSON image lives in the
following mutually inductive value type.  Field order follows the zod
shape order, and optional fields that were absent are omitted, exactly
as the validated object is built.
-/

mutual
/-- A JSON value as produced by serializing a validated request. -/
inductive Json where
  | str : String → Json
  | arr : JsonArr → Json
  | obj : JsonObj → Json
/-- A list of JSON values. -/
inductive JsonArr where
  | nil : JsonArr
  | cons : Json → JsonArr → JsonArr
/-- An ordered list of JSON object fields. -/
inductive JsonObj where
  | nil : JsonObj
  | cons : String → Json → JsonObj → JsonObj
end

/-- Prepend an object field only when the optional value is present. -/
def optField (k : String) : Option String → JsonObj → JsonObj
  | none, rest => rest
  | some s, rest => JsonObj.cons k (Json.str s) rest

/-- A JSON array of strings. -/
def strArrJson : List String → JsonArr
  | [] => JsonArr.nil
  | s :: rest => JsonArr.cons (Json.str s) (strArrJson rest)

/-- A JSON array built from list entries. -/
def arrJson {α : Type} (f : α → Json) : List α → JsonArr
  | [] => JsonArr.nil
  | x :: rest => JsonArr.cons (f x) (arrJson f rest)

/-- The JSON image of an `open_questions` entry. -/
def questionJson (q : OpenQuestion) : Json :=
  Json.obj (JsonObj.cons "question" (Json.str q.question)
    (optField "owner" q.owner (optField "due" q.due JsonObj.nil)))

/-- The JSON image of a `next_steps` entry. -/
def nextStepJson (n : NextStep) : Json :=
  Json.obj (JsonObj.cons "action" (Json.str n.action)
    (optField "owner" n.owner (optField "due" n.due
      (JsonObj.cons "status" (Json.str n.status) JsonObj.nil))))

/-- The JSON image of a `risks` entry. -/
def riskJson (r : Risk) : Json :=
  Json.obj (JsonObj.cons "risk" (Json.str r.risk)
    (JsonObj.cons "severity" (Json.str r.severity)
      (optField "mitigation" r.mitigation JsonObj.nil)))

/-- The JSON image of a `stakeholders` entry. -/
def stakeholderJson (s : Stakeholder) : Json :=
  Json.obj (JsonObj.cons "name" (Json.str s.name)
    (optField "role" s.role (optField "influence" s.influence JsonObj.nil)))

/-- The JSON image of an `evidence` entry. -/
def evidenceJson (e : Evidence) : Json :=
  Json.obj (JsonObj.cons "type" (Json.str e.type)
    (JsonObj.cons "pointer" (Json.str e.pointer)
      (JsonObj.cons "excerpt" (Json.str e.excerpt) JsonObj.nil)))

/-- The JSON image of the validated `context` object. -/
def contextJson (c : Context) : Json :=
  Json.obj (JsonObj.cons "summary" (Json.str c.summary)
    (JsonObj.cons "key_points" (Json.arr (strArrJson c.key_points))
      (JsonObj.cons "open_questions" (Json.arr (arrJson questionJson c.open_questions))
        (JsonObj.cons "next_steps" (Json.arr (arrJson nextStepJson c.next_steps))
          (JsonObj.cons "risks" (Json.arr (arrJson riskJson c.risks))
            (JsonObj.cons "stakeholders" (Json.arr (arrJson stakeholderJson c.stakeholders))
              (JsonObj.cons "evidence" (Json.arr (arrJson evidenceJson c.evidence))
                (optField "last_updated" c.last_updated JsonObj.nil))))))))

/-- The JSON image of a validated request, with fields in zod shape
order and absent optional fields omitted: the value that
`JSON.stringify` receives in `formatSummary`. -/
def toJson (x : SummarizeInput) : Json :=
  Json.obj (optField "deal_id" x.deal_id
    (optField "deal_name" x.deal_name
      (optField "source_canvas_name" x.source_canvas_name
        (JsonObj.cons "context" (contextJson x.context)
          (JsonObj.cons "output_format" (Json.str x.output_format)
            (optField "doc_title" x.doc_title JsonObj.nil))))))

/-! ## `JSON.stringify(v, null, 2)` -/

/-- Lowercase hexadecimal digit character. -/
def hexDigitChar (d : Nat) : Char :=
  if d < 10 then Char.ofNat (48 + d) else Char.ofNat (87 + d)

/-- One escaped character of a JSON string literal, following
`JSON.stringify`: quote, backslash and the named control characters get
two-character escapes, the remaining control characters get `\u00xx`,
everything else is emitted verbatim. -/
def escapeChar (c : Char) : List Char :=
  if c = '"' then ['\\', '"']
  else if c = '\\' then ['\\', '\\']
  else if c = '\x08' then ['\\', 'b']
  else if c = '\t' then ['\\', 't']
  else if c = '\n' then ['\\', 'n']
  else if c = '\x0c' then ['\\', 'f']
  else if c = '\r' then ['\\', 'r']
  else if c.toNat < 32 then
    ['\\', 'u', '0', '0',
     hexDigitChar (c.toNat / 16), hexDigitChar (c.toNat % 16)]
  else [c]

/-- The escaped body of a JSON string literal. -/
def escapeChars : List Char → List Char
  | [] => []
  | c :: rest => escapeChar c ++ escapeChars rest

/-- A JSON string literal, quotes included. -/
def printStr (cs : List Char) : List Char :=
  '"' :: (escapeChars cs ++ ['"'])

/-- An indentation run of spaces. -/
def indentChars (n : Nat) : List Char := List.replicate n ' '

mutual
/-- Pretty-printing of a JSON value with a two-space indent step, at
ambient indentation `ind`, exactly as `JSON.stringify(v, null, 2)`. -/
def printVal (ind : Nat) : Json → List Char
  | Json.str s => printStr s.data
  | Json.arr a =>
    match a with
    | JsonArr.nil => ['[', ']']
    | JsonArr.cons _ _ =>
      '[' :: '\n' :: (printItems (ind + 2) a ++ '\n' :: (indentChars ind ++ [']']))
  | Json.obj o =>
    match o with
    | JsonObj.nil => ['\x7b', '\x7d']
    | JsonObj.cons _ _ _ =>
      '\x7b' :: '\n' :: (printFields (ind + 2) o ++ '\n' :: (indentChars ind ++ ['\x7d']))
/-- The comma-and-newline separated members of an array. -/
def printItems (ind : Nat) : JsonArr → List Char
  | JsonArr.nil => []
  | JsonArr.cons h t =>
    indentChars ind ++ printVal ind h ++
      (match t with
       | JsonArr.nil => []
       | JsonArr.cons _ _ => ',' :: '\n' :: printItems ind t)
/-- The comma-and-newline separated members of an object. -/
def printFields (ind : Nat) : JsonObj → List Char
  | JsonObj.nil => []
  | JsonObj.cons k v t =>
    indentChars ind ++ printStr k.data ++ ':' :: ' ' :: printVal ind v ++
      (match t with
       | JsonObj.nil => []
       | JsonObj.cons _ _ _ => ',' :: '\n' :: printFields ind t)
end

/-- `JSON.stringify(v, null, 2)` as a string. -/
def stringifyJson (v : Json) : String := String.mk (printVal 0 v)

/-! ## `formatSummary` (src/lib/format.ts) -/

/-- The line array built by `formatSummary` before joining: header block,
the five sections, and — except for `exec_bullets` — the fenced
structured payload. -/
def formatSummaryParts (x : SummarizeInput) : List String :=
  headerLines x ++
  ["", "## Key Points", formatList x.context.key_points] ++
  ["", "## Risks", formatRisks x.context.risks] ++
  ["", "## Open Questions", formatQuestions x.context.open_questions] ++
  ["", "## Next Steps", formatNextSteps x.context.next_steps] ++
  ["", "## Stakeholders", formatStakeholders x.context.stakeholders] ++
  (if x.output_format = "exec_bullets" then []
   else ["", "### Structured Payload (for ETL)", "```json",
         stringifyJson (toJson x), "```"])

/-- `formatSummary` from src/lib/format.ts. -/
def formatSummary (x : SummarizeInput) : String :=
  joinLines (formatSummaryParts x)

/-! ## A JSON parser

`JSON.parse` restricted to the value forms the serializer emits
(strings, arrays, objects).  The parser is whitespace-tolerant between
tokens, as JSON is, and is driven by a recursion budget that any value
deep enough satisfies.
-/

/-- JSON insignificant whitespace. -/
def isJsonWs (c : Char) : Bool :=
  c = ' ' || c = '\n' || c = '\t' || c = '\r'

/-- Skip insignificant whitespace. -/
def skipWs (cs : List Char) : List Char := cs.dropWhile isJsonWs

/-- The value of a hexadecimal digit. -/
def hexVal (c : Char) : Option Nat :=
  if '0' ≤ c ∧ c ≤ '9' then some (c.toNat - 48)
  else if 'a' ≤ c ∧ c ≤ 'f' then some (c.toNat - 87)
  else if 'A' ≤ c ∧ c ≤ 'F' then some (c.toNat - 55)
  else none

/-- Parse the body of a JSON string literal after its opening quote,
returning the decoded characters and the characters after the closing
quote. -/
def parseStrBody : List Char → Option (List Char × List Char)
  | [] => none
  | c :: rest =>
    if c = '"' then some ([], rest)
    else if c = '\\' then
      match rest with
      | [] => none
      | e :: rest2 =>
        if e = '"' then (parseStrBody rest2).map (fun p => ('"' :: p.1, p.2))
        else if e = '\\' then (parseStrBody rest2).map (fun p => ('\\' :: p.1, p.2))
        else if e = '/' then (parseStrBody rest2).map (fun p => ('/' :: p.1, p.2))
        else if e = 'b' then (parseStrBody rest2).map (fun p => ('\x08' :: p.1, p.2))
        else if e = 'f' then (parseStrBody rest2).map (fun p => ('\x0c' :: p.1, p.2))
        else if e = 'n' then (parseStrBody rest2).map (fun p => ('\n' :: p.1, p.2))
        else if e = 'r' then (parseStrBody rest2).map (fun p => ('\r' :: p.1, p.2))
        else if e = 't' then (parseStrBody rest2).map (fun p => ('\t' :: p.1, p.2))
        else if e = 'u' then
          match rest2 with
          | h1 :: h2 :: h3 :: h4 :: rest3 =>
            match hexVal h1, hexVal h2, hexVal h3, hexVal h4 with
            | some a, some b, some c2, some d =>
              (parseStrBody rest3).map
                (fun p => (Char.ofNat (a * 4096 + b * 256 + c2 * 16 + d) :: p.1, p.2))
            | _, _, _, _ => none
          | _ => none
        else none
    else (parseStrBody rest).map (fun p => (c :: p.1, p.2))

mutual
/-- Parse one JSON value (string, array or object), skipping leading
whitespace, within the given recursion budget. -/
def parseVal : Nat → List Char → Option (Json × List Char)
  | 0, _ => none
  | fuel + 1, cs =>
    match skipWs cs with
    | [] => none
    | c :: rest =>
      if c = '"' then
        (parseStrBody rest).map (fun p => (Json.str (String.mk p.1), p.2))
      else if c = '[' then
        match skipWs rest with
        | c2 :: rest2 =>
          if c2 = ']' then some (Json.arr JsonArr.nil, rest2)
          else (parseItems fuel rest).map (fun p => (Json.arr p.1, p.2))
        | [] => none
      else if c = '\x7b' then
        match skipWs rest with
        | c2 :: rest2 =>
          if c2 = '\x7d' then some (Json.obj JsonObj.nil, rest2)
          else (parseFields fuel rest).map (fun p => (Json.obj p.1, p.2))
        | [] => none
      else none
/-- Parse the members of a non-empty array up to and including the
closing bracket. -/
def parseItems : Nat → List Char → Option (JsonArr × List Char)
  | 0, _ => none
  | fuel + 1, cs =>
    match parseVal fuel cs with
    | none => none
    | some (v, r1) =>
      match skipWs r1 with
      | c :: r2 =>
        if c = ',' then (parseItems fuel r2).map (fun p => (JsonArr.cons v p.1, p.2))
        else if c = ']' then some (JsonArr.cons v JsonArr.nil, r2)
        else none
      | [] => none
/-- Parse the members of a non-empty object up to and including the
closing brace. -/
def parseFields : Nat → List Char → Option (JsonObj × List Char)
  | 0, _ => none
  | fuel + 1, cs =>
    match skipWs cs with
    | c0 :: r0 =>
      if c0 = '"' then
        match parseStrBody r0 with
        | none => none
        | some (k, r1) =>
          match skipWs r1 with
          | c1 :: r2 =>
            if c1 = ':' then
              match parseVal fuel r2 with
              | none => none
              | some (v, r3) =>
                match skipWs r3 with
                | c3 :: r4 =>
                  if c3 = ',' then
                    (parseFields fuel r4).map
                      (fun p => (JsonObj.cons (String.mk k) v p.1, p.2))
                  else if c3 = '\x7d' then
                    some (JsonObj.cons (String.mk k) v JsonObj.nil, r4)
                  else none
                | [] => none
            else none
          | [] => none
      else none
    | [] => none
end

/-- `JSON.parse` on a complete document: parse one value and require
only whitespace to remain. -/
def jsonParse (s : String) : Option Json :=
  match parseVal (s.data.length + 1) s.data with
  | some (v, rest) => if skipWs rest = [] then some v else none
  | none => none

mutual
/-- Recursion budget adequate for parsing a printed value. -/
def jsize : Json → Nat
  | Json.str _ => 1
  | Json.arr a => 1 + asize a
  | Json.obj o => 1 + osize o
/-- Recursion budget adequate for parsing printed array members. -/
def asize : JsonArr → Nat
  | JsonArr.nil => 1
  | JsonArr.cons h t => 1 + jsize h + asize t
/-- Recursion budget adequate for parsing printed object members. -/
def osize : JsonObj → Nat
  | JsonObj.nil => 1
  | JsonObj.cons _ v t => 1 + jsize v + osize t
end

/-- A line acceptable in the rendered body: no embedded newline and not
opening a fence. -/
def lineOk (l : String) : Prop := '\n' ∉ l.data ∧ l.data.head? ≠ some '`'

/-- Strings free of embedded newlines. -/
def noNl (s : String) : Prop := '\n' ∉ s.data

/-- The enum fields the formatter renders without cleaning, restricted
to the literals the validator accepts. -/
def validEnums (x : SummarizeInput) : Prop :=
  (∀ n ∈ x.context.next_steps, n.status = "open" ∨ n.status = "done") ∧
  (∀ r ∈ x.context.risks, r.severity = "low" ∨ r.severity = "med" ∨ r.severity = "high")

/-- A rendered part that can be safely joined: no fence opener inside,
no leading backtick. -/
def partOk (p : String) : Prop :=
  hasFence p.data = false ∧ p.data.head? ≠ some '`'

/-! ## JavaScript values and the zod validator (src/lib/schema.ts)

Request bodies arrive as parsed JSON, so a JavaScript value here is
null, a boolean, a number, a string, an array or a plain object.  The
zod schema is embedded as a validator over these values that gathers
all violations (path plus message), strips unknown object keys, and
fills defaulted arrays — exactly the behaviour of
`summarizeInputSchema.safeParse`.
-/

/-- A JavaScript value as produced by parsing a JSON body. -/
inductive JSVal where
  | null : JSVal
  | bool : Bool → JSVal
  | num : Int → JSVal
  | str : String → JSVal
  | arr : List JSVal → JSVal
  | obj : List (String × JSVal) → JSVal

/-- The `typeof`-style name zod reports for a received value. -/
def jsTypeName : JSVal → String
  | JSVal.null => "null"
  | JSVal.bool _ => "boolean"
  | JSVal.num _ => "number"
  | JSVal.str _ => "string"
  | JSVal.arr _ => "array"
  | JSVal.obj _ => "object"

/-- Property lookup on an object, by key. -/
def objLookup (fields : List (String × JSVal)) (k : String) : Option JSVal :=
  match fields with
  | [] => none
  | (k2, v) :: rest => if k2 = k then some v else objLookup rest k

/-- Whether an object has the own property `k`. -/
def hasKey (fields : List (String × JSVal)) (k : String) : Bool :=
  match fields with
  | [] => false
  | (k2, _) :: rest => if k2 = k then true else hasKey rest k

/-- One step of a zod issue path: an object key or an array index. -/
inductive PathSeg where
  | key : String → PathSeg
  | idx : Nat → PathSeg
  deriving Repr, DecidableEq

/-- A field-level violation: path and human-readable message. -/
structure Issue where
  path : List PathSeg
  message : String
  deriving Repr, DecidableEq

/-- Rendering of one path segment inside `path.join(".")`. -/
def pathSegStr : PathSeg → String
  | PathSeg.key k => k
  | PathSeg.idx n => natStr n

/-- The path prefix of one formatted violation line:
`issue.path.length ? issue.path.join(".") : "input"`. -/
def pathStr (p : List PathSeg) : String :=
  if p.length = 0 then "input" else joinWith "." (p.map pathSegStr)

/-- `formatZodError` from src/lib/schema.ts: one line per violation,
each prefixed by its field path. -/
def formatZodError (issues : List Issue) : String :=
  joinLines (issues.map (fun issue => "- " ++ pathStr issue.path ++ ": " ++ issue.message))

/-- The issues of a failed subresult, the empty list otherwise. -/
def exIssues {α : Type} : Except (List Issue) α → List Issue
  | Except.error is => is
  | Except.ok _ => []

/-- `trimmedString` (`z.string().min(1)`) at a required position:
absent values, non-strings and the empty string are violations.  Note
the check is only on length, so whitespace-only strings pass. -/
def vString (path : List PathSeg) : Option JSVal → Except (List Issue) String
  | none => Except.error [⟨path, "Required"⟩]
  | some (JSVal.str s) =>
    if 1 ≤ s.length then Except.ok s
    else Except.error [⟨path, "String must contain at least 1 character(s)"⟩]
  | some v => Except.error [⟨path, "Expected string, received " ++ jsTypeName v⟩]

/-- `trimmedString.optional()`: absent is fine. -/
def vStringOpt (path : List PathSeg) : Option JSVal → Except (List Issue) (Option String)
  | none => Except.ok none
  | some v => (vString path (some v)).map some

/-- A zod string enum: the value must exactly match one of the declared
literals. -/
def vEnum (path : List PathSeg) (choices : List String) :
    Option JSVal → Except (List Issue) String
  | none => Except.error [⟨path, "Required"⟩]
  | some (JSVal.str s) =>
    if choices.contains s then Except.ok s
    else Except.error
      [⟨path, "Invalid enum value. Expected one of: " ++ joinWith " | " choices ++
        ", received: " ++ s⟩]
  | some v => Except.error [⟨path, "Expected string enum, received " ++ jsTypeName v⟩]

/-- The `YYYY-MM-DD` pattern of `dateString`. -/
def dateMatch (s : String) : Bool :=
  match s.data with
  | [a, b, c, d, e, f, g, h, i, j] =>
    a.isDigit && b.isDigit && c.isDigit && d.isDigit && e = '-' &&
    f.isDigit && g.isDigit && h = '-' && i.isDigit && j.isDigit
  | _ => false

/-- `dateString.optional()`: when present, a string matching the date
pattern; the custom message is the one declared in the schema. -/
def vDateOpt (path : List PathSeg) : Option JSVal → Except (List Issue) (Option String)
  | none => Except.ok none
  | some (JSVal.str s) =>
    if dateMatch s then Except.ok (some s)
    else Except.error [⟨path, "Use YYYY-MM-DD"⟩]
  | some v => Except.error [⟨path, "Expected string, received " ++ jsTypeName v⟩]

/-- Element-wise validation of an array, indices entering the path;
all element violations are gathered. -/
def vElems {α : Type} (path : List PathSeg)
    (elem : List PathSeg → JSVal → Except (List Issue) α) :
    Nat → List JSVal → Except (List Issue) (List α)
  | _, [] => Except.ok []
  | i, x :: rest =>
    match elem (path ++ [PathSeg.idx i]) x, vElems path elem (i + 1) rest with
    | Except.ok a, Except.ok as => Except.ok (a :: as)
    | ra, rrest => Except.error (exIssues ra ++ exIssues rrest)

/-- `z.array(elem).optional().default([])`: absent becomes the empty
list; a non-array is a violation. -/
def vArrD {α : Type} (path : List PathSeg)
    (elem : List PathSeg → JSVal → Except (List Issue) α) :
    Option JSVal → Except (List Issue) (List α)
  | none => Except.ok []
  | some (JSVal.arr xs) => vElems path elem 0 xs
  | some v => Except.error [⟨path, "Expected array, received " ++ jsTypeName v⟩]

/-- `openQuestionSchema`. -/
def vOpenQuestion (path : List PathSeg) (v : JSVal) : Except (List Issue) OpenQuestion :=
  match v with
  | JSVal.obj fields =>
    match vString (path ++ [PathSeg.key "question"]) (objLookup fields "question"),
      vStringOpt (path ++ [PathSeg.key "owner"]) (objLookup fields "owner"),
      vStringOpt (path ++ [PathSeg.key "due"]) (objLookup fields "due") with
    | Except.ok q, Except.ok o, Except.ok d => Except.ok ⟨q, o, d⟩
    | rq, ro, rd => Except.error (exIssues rq ++ exIssues ro ++ exIssues rd)
  | v => Except.error [⟨path, "Expected object, received " ++ jsTypeName v⟩]

/-- `nextStepSchema`. -/
def vNextStep (path : List PathSeg) (v : JSVal) : Except (List Issue) NextStep :=
  match v with
  | JSVal.obj fields =>
    match vString (path ++ [PathSeg.key "action"]) (objLookup fields "action"),
      vStringOpt (path ++ [PathSeg.key "owner"]) (objLookup fields "owner"),
      vStringOpt (path ++ [PathSeg.key "due"]) (objLookup fields "due"),
      vEnum (path ++ [PathSeg.key "status"]) ["open", "done"]
        (objLookup fields "status") with
    | Except.ok a, Except.ok o, Except.ok d, Except.ok st => Except.ok ⟨a, o, d, st⟩
    | ra, ro, rd, rst =>
      Except.error (exIssues ra ++ exIssues ro ++ exIssues rd ++ exIssues rst)
  | v => Except.error [⟨path, "Expected object, received " ++ jsTypeName v⟩]

/-- `riskSchema`. -/
def vRisk (path : List PathSeg) (v : JSVal) : Except (List Issue) Risk :=
  match v with
  | JSVal.obj fields =>
    match vString (path ++ [PathSeg.key "risk"]) (objLookup fields "risk"),
      vEnum (path ++ [PathSeg.key "severity"]) ["low", "med", "high"]
        (objLookup fields "severity"),
      vStringOpt (path ++ [PathSeg.key "mitigation"]) (objLookup fields "mitigation") with
    | Except.ok r, Except.ok sev, Except.ok m => Except.ok ⟨r, sev, m⟩
    | rr, rsev, rm => Except.error (exIssues rr ++ exIssues rsev ++ exIssues rm)
  | v => Except.error [⟨path, "Expected object, received " ++ jsTypeName v⟩]

/-- `stakeholderSchema`. -/
def vStakeholder (path : List PathSeg) (v : JSVal) : Except (List Issue) Stakeholder :=
  match v with
  | JSVal.obj fields =>
    match vString (path ++ [PathSeg.key "name"]) (objLookup fields "name"),
      vStringOpt (path ++ [PathSeg.key "role"]) (objLookup fields "role"),
      vStringOpt (path ++ [PathSeg.key "influence"]) (objLookup fields "influence") with
    | Except.ok n, Except.ok r, Except.ok inf => Except.ok ⟨n, r, inf⟩
    | rn, rr, rinf => Except.error (exIssues rn ++ exIssues rr ++ exIssues rinf)
  | v => Except.error [⟨path, "Expected object, received " ++ jsTypeName v⟩]

/-- `evidenceSchema`. -/
def vEvidence (path : List PathSeg) (v : JSVal) : Except (List Issue) Evidence :=
  match v with
  | JSVal.obj fields =>
    match vEnum (path ++ [PathSeg.key "type"]) ["conversation", "canvas"]
        (objLookup fields "type"),
      vString (path ++ [PathSeg.key "pointer"]) (objLookup fields "pointer"),
      vString (path ++ [PathSeg.key "excerpt"]) (objLookup fields "excerpt") with
    | Except.ok t, Except.ok p, Except.ok e => Except.ok ⟨t, p, e⟩
    | rt, rp, re2 => Except.error (exIssues rt ++ exIssues rp ++ exIssues re2)
  | v => Except.error [⟨path, "Expected object, received " ++ jsTypeName v⟩]

/-- `contextSchema`: a required closed-over object whose unknown keys
are stripped (zod default mode) and whose array fields default to
empty. -/
def vContext (path : List PathSeg) : Option JSVal → Except (List Issue) Context
  | none => Except.error [⟨path, "Required"⟩]
  | some (JSVal.obj fields) =>
    match vString (path ++ [PathSeg.key "summary"]) (objLookup fields "summary"),
      vArrD (path ++ [PathSeg.key "key_points"])
        (fun p v => vString p (some v)) (objLookup fields "key_points"),
      vArrD (path ++ [PathSeg.key "open_questions"]) vOpenQuestion
        (objLookup fields "open_questions"),
      vArrD (path ++ [PathSeg.key "next_steps"]) vNextStep
        (objLookup fields "next_steps"),
      vArrD (path ++ [PathSeg.key "risks"]) vRisk (objLookup fields "risks"),
      vArrD (path ++ [PathSeg.key "stakeholders"]) vStakeholder
        (objLookup fields "stakeholders"),
      vArrD (path ++ [PathSeg.key "evidence"]) vEvidence
        (objLookup fields "evidence"),
      vDateOpt (path ++ [PathSeg.key "last_updated"])
        (objLookup fields "last_updated") with
    | Except.ok su, Except.ok kp, Except.ok oq, Except.ok ns, Except.ok rk,
        Except.ok sh, Except.ok ev, Except.ok lu =>
      Except.ok ⟨su, kp, oq, ns, rk, sh, ev, lu⟩
    | rsu, rkp, roq, rns, rrk, rsh, rev, rlu =>
      Except.error (exIssues rsu ++ exIssues rkp ++ exIssues roq ++ exIssues rns ++
        exIssues rrk ++ exIssues rsh ++ exIssues rev ++ exIssues rlu)
  | some v => Except.error [⟨path, "Expected object, received " ++ jsTypeName v⟩]

/-- `summarizeInputSchema.safeParse`: validate an arbitrary JavaScript
value, gathering all violations in shape order, stripping unknown keys
and defaulting absent arrays. -/
def safeParseSummarizeInput (v : JSVal) : Except (List Issue) SummarizeInput :=
  match v with
  | JSVal.obj fields =>
    match vStringOpt [PathSeg.key "deal_id"] (objLookup fields "deal_id"),
      vStringOpt [PathSeg.key "deal_name"] (objLookup fields "deal_name"),
      vStringOpt [PathSeg.key "source_canvas_name"]
        (objLookup fields "source_canvas_name"),
      vContext [PathSeg.key "context"] (objLookup fields "context"),
      vEnum [PathSeg.key "output_format"] ["exec_bullets", "se_deal_update", "memo"]
        (objLookup fields "output_format"),
      vStringOpt [PathSeg.key "doc_title"] (objLookup fields "doc_title") with
    | Except.ok di, Except.ok dn, Except.ok sc, Except.ok ctx, Except.ok fm,
        Except.ok dt =>
      Except.ok ⟨di, dn, sc, ctx, fm, dt⟩
    | rdi, rdn, rsc, rctx, rfm, rdt =>
      Except.error (exIssues rdi ++ exIssues rdn ++ exIssues rsc ++ exIssues rctx ++
        exIssues rfm ++ exIssues rdt)
  | v => Except.error [⟨[], "Expected object, received " ++ jsTypeName v⟩]

/-! ## The webhook pusher and JSON-RPC dispatcher (the route handler)

The environment packages what the handler reads from the outside world:
the optional webhook configuration (`DOC_WEBHOOK_URL` /
`DOC_WEBHOOK_TOKEN`), the behaviour of the single outbound `fetch`
(either a response or a thrown transport error, whose `String(error)`
rendering is carried directly), and the healthcheck payload text (which
depends on process uptime and wall-clock time).  Every outbound POST is
recorded in a call log so that absence of network I/O is a provable
statement.
-/

/-- The webhook destination configuration. -/
structure WebhookConfig where
  url : String
  token : String
  deriving Repr, DecidableEq

/-- The response of the single `fetch`, when it does not throw:
`status`, and the body text (empty when unreadable, as
`res.text().catch(() => "")` yields). -/
structure FetchResponse where
  status : Nat
  body : String
  deriving Repr, DecidableEq

/-- The outside world as the handler sees it. -/
structure Env where
  config : Option WebhookConfig
  fetchResult : Except String FetchResponse
  healthText : String

/-- A recorded outbound POST to the webhook. -/
structure FetchCall where
  url : String
  token : String
  title : String
  text : String
  deriving Repr, DecidableEq

/-- The result value of `pushSummaryToDocWebhook`: `{ok: true}` or
`{ok: false, error}`. -/
inductive PushResult where
  | ok : PushResult
  | failed : String → PushResult
  deriving Repr, DecidableEq

/-- `pushSummaryToDocWebhook`: fail fast without I/O when the
configuration is absent; otherwise issue the single POST, treat any
status in 200–399 as success, and surface other statuses with the first
300 characters of the body, or a thrown transport error verbatim. -/
def pushSummaryToDocWebhook (env : Env) (title text : String) :
    PushResult × List FetchCall :=
  match env.config with
  | none => (PushResult.failed "DOC_WEBHOOK_URL / DOC_WEBHOOK_TOKEN not configured.", [])
  | some cfg =>
    let call : FetchCall := ⟨cfg.url, cfg.token, title, text⟩
    match env.fetchResult with
    | Except.error e => (PushResult.failed e, [call])
    | Except.ok res =>
      if 200 ≤ res.status ∧ res.status < 400 then (PushResult.ok, [call])
      else
        (PushResult.failed ("Webhook HTTP " ++ natStr res.status ++ ": " ++
          strTake res.body 300), [call])

/-- A JSON-RPC id after `coerceJsonRpcId`. -/
inductive RpcId where
  | s : String → RpcId
  | n : Int → RpcId
  | null : RpcId
  deriving Repr, DecidableEq

/-- `coerceJsonRpcId`: strings and numbers pass through, anything else
becomes null. -/
def coerceJsonRpcId : Option JSVal → RpcId
  | some (JSVal.str s) => RpcId.s s
  | some (JSVal.num n) => RpcId.n n
  | _ => RpcId.null

/-- The `data` member of a protocol error, one constructor per constant
the handler attaches. -/
inductive ErrData where
  | expectedObject : ErrData
  | missingJsonrpc : ErrData
  | missingMethod : ErrData
  | forMethod : String → ErrData
  deriving Repr, DecidableEq

/-- A tool result: the single text content item and the `isError`
flag. -/
structure ToolOut where
  text : String
  isError : Bool
  deriving Repr, DecidableEq

/-- The payload of a successful JSON-RPC response: the fixed
`initialize` capability object, the static tool catalogue, the empty
object acknowledging `initialized`, or a tool result. -/
inductive ResultPayload where
  | initCaps : ResultPayload
  | toolCatalog : ResultPayload
  | emptyObj : ResultPayload
  | tool : ToolOut → ResultPayload
  deriving Repr, DecidableEq

/-- A JSON-RPC response envelope: `makeResult` or `makeError`. -/
inductive RpcResponse where
  | result : RpcId → ResultPayload → RpcResponse
  | err : RpcId → Int → String → ErrData → RpcResponse
  deriving Repr, DecidableEq

/-- The `params` object of a `tools/call`, defaulting to `{}` when
absent or not an object. -/
def paramsFields (fields : List (String × JSVal)) : List (String × JSVal) :=
  match objLookup fields "params" with
  | some (JSVal.obj o) => o
  | _ => []

/-- The `params.arguments` object, defaulting to `{}` when absent or
not an object. -/
def argsVal (fields : List (String × JSVal)) : JSVal :=
  match objLookup (paramsFields fields) "arguments" with
  | some (JSVal.obj o) => JSVal.obj o
  | _ => JSVal.obj []

/-- The `params.name` string, defaulting to `""` when absent or not a
string. -/
def toolName (fields : List (String × JSVal)) : String :=
  match objLookup (paramsFields fields) "name" with
  | some (JSVal.str s) => s
  | _ => ""

/-- The title preference chain
`doc_title ?? deal_name ?? deal_id ?? "CanvasETL Summary"`. -/
def chosenTitle (x : SummarizeInput) : String :=
  match x.doc_title with
  | some t => t
  | none =>
    match x.deal_name with
    | some t => t
    | none =>
      match x.deal_id with
      | some t => t
      | none => "CanvasETL Summary"

/-- The `tools/call` branch of `handleMessage`. -/
def handleToolsCall (env : Env) (id : RpcId) (fields : List (String × JSVal)) :
    Option RpcResponse × List FetchCall :=
  let name := toolName fields
  if name = "" then
    (some (RpcResponse.result id (ResultPayload.tool
      ⟨"Validation error: tool name is required.", true⟩)), [])
  else if name = "healthcheck" then
    (some (RpcResponse.result id (ResultPayload.tool ⟨env.healthText, false⟩)), [])
  else if name = "summarize_context" then
    match safeParseSummarizeInput (argsVal fields) with
    | Except.error issues =>
      (some (RpcResponse.result id (ResultPayload.tool
        ⟨"Validation error:\n" ++ formatZodError issues, true⟩)), [])
    | Except.ok parsed =>
      let summaryText := formatSummary parsed
      let title := chosenTitle parsed
      let push := pushSummaryToDocWebhook env title summaryText
      match push.1 with
      | PushResult.ok =>
        (some (RpcResponse.result id (ResultPayload.tool
          ⟨"Doc push: ok\nTitle: " ++ title, false⟩)), push.2)
      | PushResult.failed e =>
        (some (RpcResponse.result id (ResultPayload.tool
          ⟨"Doc push: failed\n" ++ e, true⟩)), push.2)
  else
    (some (RpcResponse.result id (ResultPayload.tool
      ⟨"Unknown tool: " ++ name, true⟩)), [])

/-- `handleMessage`: envelope checks, notification semantics and method
routing, faithful to the route handler. -/
def handleMessage (env : Env) (message : JSVal) :
    Option RpcResponse × List FetchCall :=
  match message with
  | JSVal.obj fields =>
    let hId := hasKey fields "id"
    let id := if hId then coerceJsonRpcId (objLookup fields "id") else RpcId.null
    match objLookup fields "jsonrpc" with
    | some (JSVal.str ver) =>
      if ver = "2.0" then
        let method := match objLookup fields "method" with
          | some (JSVal.str m) => m
          | _ => ""
        if method = "" then
          (some (RpcResponse.err id (-32600) "Invalid Request" ErrData.missingMethod), [])
        else if method = "initialized" ∨ method = "notifications/initialized" then
          (if hId then some (RpcResponse.result id ResultPayload.emptyObj) else none, [])
        else if ¬ hId then
          (none, [])
        else if method = "initialize" then
          (some (RpcResponse.result id ResultPayload.initCaps), [])
        else if method = "tools/list" then
          (some (RpcResponse.result id ResultPayload.toolCatalog), [])
        else if method = "tools/call" then
          handleToolsCall env id fields
        else
          (some (RpcResponse.err id (-32601) "Method not found"
            (ErrData.forMethod method)), [])
      else
        (some (RpcResponse.err id (-32600) "Invalid Request" ErrData.missingJsonrpc), [])
    | _ =>
      (some (RpcResponse.err id (-32600) "Invalid Request" ErrData.missingJsonrpc), [])
  | _ => (some (RpcResponse.err RpcId.null (-32600) "Invalid Request"
      ErrData.expectedObject), [])

/-- The outcome the HTTP layer sends back for a parsed body. -/
inductive HttpOut where
  | noContent : HttpOut
  | single : RpcResponse → HttpOut
  | batch : List RpcResponse → HttpOut
  deriving Repr, DecidableEq

/-- The batch loop of `POST`: process messages in order, keep the
non-null responses, concatenate the webhook call logs. -/
def processBatch (env : Env) : List JSVal → List RpcResponse × List FetchCall
  | [] => ([], [])
  | m :: rest =>
    let r := handleMessage env m
    let rs := processBatch env rest
    (match r.1 with
     | some resp => resp :: rs.1
     | none => rs.1, r.2 ++ rs.2)

/-- `POST` on a successfully parsed JSON body: arrays are batches whose
empty response list becomes 204 No Content; single envelopes respond
directly, or 204 for a pure notification. -/
def handlePOSTBody (env : Env) (body : JSVal) : HttpOut × List FetchCall :=
  match body with
  | JSVal.arr msgs =>
    let rs := processBatch env msgs
    (if rs.1.length = 0 then HttpOut.noContent else HttpOut.batch rs.1, rs.2)
  | _ =>
    let r := handleMessage env body
    (match r.1 with
     | none => HttpOut.noContent
     | some resp => HttpOut.single resp, r.2)

/-- The spec wording for a list-shaped section (claim C3): empty lists
render the single line `- None`; longer lists render at most 8 item
lines, with one overflow line `- ... (+N more)` reporting the rest. -/
def specListSection {α : Type} (line : α → String) (items : List α) : String :=
  if items.length = 0 then "- None"
  else if items.length ≤ 8 then joinLines (items.map line)
  else joinLines ((items.take 8).map line ++
    ["- ... (+" ++ natStr (items.length - 8) ++ " more)"])

/-! ## Round trip: the parser inverts the serializer -/

theorem skipWs_cons_of_ws {c : Char} (h : isJsonWs c = true) (cs : List Char) :
    skipWs (c :: cs) = skipWs cs := by
  simp [skipWs, List.dropWhile_cons, h]

theorem skipWs_cons_of_not_ws {c : Char} (h : isJsonWs c = false) (cs : List Char) :
    skipWs (c :: cs) = c :: cs := by
  simp [skipWs, List.dropWhile_cons, h]

theorem skipWs_indent (n : Nat) (cs : List Char) :
    skipWs (indentChars n ++ cs) = skipWs cs := by
  induction n with
  | zero => simp [indentChars]
  | succ k ih =>
    have : indentChars (k + 1) = ' ' :: indentChars k := by
      simp [indentChars, List.replicate_succ]
    rw [this, List.cons_append, skipWs_cons_of_ws (by decide)]
    exact ih

theorem parseVal_ws_prefix {w : List Char} (hw : ∀ c ∈ w, isJsonWs c = true)
    (f : Nat) (cs : List Char) : parseVal f (w ++ cs) = parseVal f cs := by
  have hskip : skipWs (w ++ cs) = skipWs cs := by
    induction w with
    | nil => simp
    | cons c w ih =>
      rw [List.cons_append, skipWs_cons_of_ws (hw c (by simp))]
      exact ih (fun c hc => hw c (by simp [hc]))
  cases f with
  | zero => rfl
  | succ f => simp only [parseVal, hskip]

theorem parseItems_ws_prefix {w : List Char} (hw : ∀ c ∈ w, isJsonWs c = true)
    (f : Nat) (cs : List Char) : parseItems f (w ++ cs) = parseItems f cs := by
  cases f with
  | zero => rfl
  | succ f => simp only [parseItems, parseVal_ws_prefix hw]

theorem parseFields_ws_prefix {w : List Char} (hw : ∀ c ∈ w, isJsonWs c = true)
    (f : Nat) (cs : List Char) : parseFields f (w ++ cs) = parseFields f cs := by
  have hskip : skipWs (w ++ cs) = skipWs cs := by
    induction w with
    | nil => simp
    | cons c w ih =>
      rw [List.cons_append, skipWs_cons_of_ws (hw c (by simp))]
      exact ih (fun c hc => hw c (by simp [hc]))
  cases f with
  | zero => rfl
  | succ f => simp only [parseFields, hskip]

theorem hexVal_hexDigitChar {k : Nat} (h : k < 16) :
    hexVal (hexDigitChar k) = some k := by
  interval_cases k <;> decide

theorem parseStrBody_u_escape (c : Char) (hc : c.toNat < 32) (X : List Char) :
    parseStrBody ('\\' :: 'u' :: '0' :: '0' :: hexDigitChar (c.toNat / 16) ::
      hexDigitChar (c.toNat % 16) :: X) =
    (parseStrBody X).map (fun p => (c :: p.1, p.2)) := by
  have hdiv : c.toNat / 16 < 16 := by omega
  have hmod : c.toNat % 16 < 16 := Nat.mod_lt _ (by omega)
  have h0 : hexVal '0' = some 0 := by decide
  rw [parseStrBody.eq_def]
  simp [h0, hexVal_hexDigitChar hdiv, hexVal_hexDigitChar hmod]
  have h4 : c.toNat / 16 * 16 + c.toNat % 16 = c.toNat := by omega
  simp [h4, Char.ofNat_toNat]

theorem parseStrBody_escape (cs rest : List Char) :
    parseStrBody (escapeChars cs ++ ('"' :: rest)) = some (cs, rest) := by
  induction cs with
  | nil =>
    show parseStrBody ('"' :: rest) = _
    rw [parseStrBody.eq_def]
    simp
  | cons c cs ih =>
    show parseStrBody ((escapeChar c ++ escapeChars cs) ++ ('"' :: rest)) = _
    rw [List.append_assoc]
    by_cases hq : c = '"'
    · subst hq
      show parseStrBody ('\\' :: '"' :: _) = _
      rw [parseStrBody.eq_def]
      simp [ih]
    by_cases hb : c = '\\'
    · subst hb
      show parseStrBody ('\\' :: '\\' :: _) = _
      rw [parseStrBody.eq_def]
      simp [ih]
    by_cases h8 : c = '\x08'
    · subst h8
      show parseStrBody ('\\' :: 'b' :: _) = _
      rw [parseStrBody.eq_def]
      simp [ih]
    by_cases ht : c = '\t'
    · subst ht
      show parseStrBody ('\\' :: 't' :: _) = _
      rw [parseStrBody.eq_def]
      simp [ih]
    by_cases hn : c = '\n'
    · subst hn
      show parseStrBody ('\\' :: 'n' :: _) = _
      rw [parseStrBody.eq_def]
      simp [ih]
    by_cases hf : c = '\x0c'
    · subst hf
      show parseStrBody ('\\' :: 'f' :: _) = _
      rw [parseStrBody.eq_def]
      simp [ih]
    by_cases hr : c = '\r'
    · subst hr
      show parseStrBody ('\\' :: 'r' :: _) = _
      rw [parseStrBody.eq_def]
      simp [ih]
    by_cases hc : c.toNat < 32
    · simp only [escapeChar, if_neg hq, if_neg hb, if_neg h8, if_neg ht, if_neg hn,
        if_neg hf, if_neg hr, if_pos hc, List.cons_append, List.nil_append]
      rw [parseStrBody_u_escape c hc]
      simp [ih]
    · simp only [escapeChar, if_neg hq, if_neg hb, if_neg h8, if_neg ht, if_neg hn,
        if_neg hf, if_neg hr, if_neg hc, List.cons_append, List.nil_append]
      rw [parseStrBody.eq_def]
      simp [hq, hb, ih]

theorem jsize_pos (v : Json) : 1 ≤ jsize v := by
  cases v <;> simp [jsize]

theorem asize_pos (a : JsonArr) : 1 ≤ asize a := by
  cases a with
  | nil => simp [asize]
  | cons h t => simp only [asize]; omega

theorem osize_pos (o : JsonObj) : 1 ≤ osize o := by
  cases o with
  | nil => simp [osize]
  | cons k v t => simp only [osize]; omega

theorem printVal_head (ind : Nat) (v : Json) :
    ∃ c tl, printVal ind v = c :: tl ∧ isJsonWs c = false ∧
      c ≠ ']' ∧ c ≠ '\x7d' ∧ c ≠ ',' := by
  cases v with
  | str s =>
    exact ⟨'"', _, rfl, by decide, by decide, by decide, by decide⟩
  | arr a =>
    cases a with
    | nil => exact ⟨'[', _, rfl, by decide, by decide, by decide, by decide⟩
    | cons h t => exact ⟨'[', _, rfl, by decide, by decide, by decide, by decide⟩
  | obj o =>
    cases o with
    | nil => exact ⟨'\x7b', _, rfl, by decide, by decide, by decide, by decide⟩
    | cons k v t => exact ⟨'\x7b', _, rfl, by decide, by decide, by decide, by decide⟩

theorem indent_ws (n : Nat) : ∀ c ∈ indentChars n, isJsonWs c = true := by
  intro c hc
  have : c = ' ' := List.eq_of_mem_replicate hc
  subst this
  decide

theorem skipWs_print (ind : Nat) (v : Json) (X : List Char) :
    skipWs (printVal ind v ++ X) = printVal ind v ++ X := by
  obtain ⟨c, tl, he, hws, _, _, _⟩ := printVal_head ind v
  rw [he, List.cons_append, skipWs_cons_of_not_ws hws]

theorem skipWs_newline_indent (n : Nat) (X : List Char) :
    skipWs ('\n' :: (indentChars n ++ X)) = skipWs X := by
  rw [skipWs_cons_of_ws (by decide)]
  exact skipWs_indent n X

theorem parseVal_ws_cons {c : Char} (h : isJsonWs c = true) (f : Nat) (cs : List Char) :
    parseVal f (c :: cs) = parseVal f cs := by
  have h2 : ∀ x ∈ [c], isJsonWs x = true := by
    intro x hx
    simp at hx
    subst hx
    exact h
  simpa using parseVal_ws_prefix h2 f cs

theorem parseItems_ws_cons {c : Char} (h : isJsonWs c = true) (f : Nat) (cs : List Char) :
    parseItems f (c :: cs) = parseItems f cs := by
  have h2 : ∀ x ∈ [c], isJsonWs x = true := by
    intro x hx
    simp at hx
    subst hx
    exact h
  simpa using parseItems_ws_prefix h2 f cs

theorem parseFields_ws_cons {c : Char} (h : isJsonWs c = true) (f : Nat) (cs : List Char) :
    parseFields f (c :: cs) = parseFields f cs := by
  have h2 : ∀ x ∈ [c], isJsonWs x = true := by
    intro x hx
    simp at hx
    subst hx
    exact h
  simpa using parseFields_ws_prefix h2 f cs

theorem parseVal_indent (n : Nat) (f : Nat) (cs : List Char) :
    parseVal f (indentChars n ++ cs) = parseVal f cs :=
  parseVal_ws_prefix (indent_ws n) f cs

theorem parseItems_indent (n : Nat) (f : Nat) (cs : List Char) :
    parseItems f (indentChars n ++ cs) = parseItems f cs :=
  parseItems_ws_prefix (indent_ws n) f cs

theorem skipWs_printItemsCons (ind : Nat) (h : Json) (t : JsonArr) (X : List Char) :
    ∃ c tl, skipWs (printItems ind (JsonArr.cons h t) ++ X) = c :: tl ∧
      c ≠ ']' ∧ c ≠ '\x7d' := by
  obtain ⟨c, tl, he, hws, h1, h2, h3⟩ := printVal_head ind h
  have key : ∃ suf, printItems ind (JsonArr.cons h t) ++ X =
      indentChars ind ++ (printVal ind h ++ suf) := by
    cases t with
    | nil =>
      refine ⟨X, ?_⟩
      simp [printItems]
    | cons h2 t2 =>
      refine ⟨',' :: '\n' :: (printItems ind (JsonArr.cons h2 t2) ++ X), ?_⟩
      simp [printItems]
  obtain ⟨suf, hkey⟩ := key
  refine ⟨c, tl ++ suf, ?_, h1, h2⟩
  rw [hkey, skipWs_indent, he, List.cons_append, skipWs_cons_of_not_ws hws]

theorem skipWs_printFieldsCons (ind : Nat) (k : String) (v : Json) (t : JsonObj)
    (X : List Char) :
    ∃ tl, skipWs (printFields ind (JsonObj.cons k v t) ++ X) = '"' :: tl := by
  have key : ∃ suf, printFields ind (JsonObj.cons k v t) ++ X =
      indentChars ind ++ ('"' :: suf) := by
    cases t with
    | nil =>
      refine ⟨escapeChars k.data ++ ('"' :: (':' :: ' ' :: (printVal ind v ++ X))), ?_⟩
      simp [printFields, printStr]
    | cons k2 v2 t2 =>
      refine ⟨escapeChars k.data ++ ('"' :: (':' :: ' ' :: (printVal ind v ++
        (',' :: '\n' :: (printFields ind (JsonObj.cons k2 v2 t2) ++ X))))), ?_⟩
      simp [printFields, printStr]
  obtain ⟨suf, hkey⟩ := key
  refine ⟨suf, ?_⟩
  rw [hkey, skipWs_indent, skipWs_cons_of_not_ws (by decide)]

theorem parseItems_succ (fuel : Nat) (cs : List Char) :
    parseItems (fuel + 1) cs = match parseVal fuel cs with
      | none => none
      | some (v, r1) =>
        match skipWs r1 with
        | c :: r2 =>
          if c = ',' then (parseItems fuel r2).map (fun p => (JsonArr.cons v p.1, p.2))
          else if c = ']' then some (JsonArr.cons v JsonArr.nil, r2)
          else none
        | [] => none := rfl

theorem parseFields_succ (fuel : Nat) (cs : List Char) :
    parseFields (fuel + 1) cs = match skipWs cs with
      | c0 :: r0 =>
        if c0 = '"' then
          match parseStrBody r0 with
          | none => none
          | some (k, r1) =>
            match skipWs r1 with
            | c1 :: r2 =>
              if c1 = ':' then
                match parseVal fuel r2 with
                | none => none
                | some (v, r3) =>
                  match skipWs r3 with
                  | c3 :: r4 =>
                    if c3 = ',' then
                      (parseFields fuel r4).map
                        (fun p => (JsonObj.cons (String.mk k) v p.1, p.2))
                    else if c3 = '\x7d' then
                      some (JsonObj.cons (String.mk k) v JsonObj.nil, r4)
                    else none
                  | [] => none
              else none
            | [] => none
        else none
      | [] => none := rfl

/-- The parser inverts the printer, given a budget at least the size of
the value: one statement each for values, non-empty array tails and
non-empty object tails, proved together by strong induction on the
budget. -/
theorem parse_print_budget (f : Nat) :
    (∀ v ind rest, jsize v ≤ f →
       parseVal f (printVal ind v ++ rest) = some (v, rest)) ∧
    (∀ a ind indC rest, a ≠ JsonArr.nil → asize a ≤ f →
       parseItems f (printItems ind a ++ '\n' :: (indentChars indC ++ (']' :: rest)))
         = some (a, rest)) ∧
    (∀ o ind indC rest, o ≠ JsonObj.nil → osize o ≤ f →
       parseFields f (printFields ind o ++ '\n' :: (indentChars indC ++ ('\x7d' :: rest)))
         = some (o, rest)) := by
  induction f using Nat.strong_induction_on with
  | _ f IH =>
  cases f with
  | zero =>
    refine ⟨fun v ind rest hsz => ?_, fun a ind indC rest hne hsz => ?_,
      fun o ind indC rest hne hsz => ?_⟩
    · have := jsize_pos v
      omega
    · have := asize_pos a
      omega
    · have := osize_pos o
      omega
  | succ fuel =>
    obtain ⟨IHv, IHa, IHo⟩ := IH fuel (Nat.lt_succ_self fuel)
    refine ⟨fun v ind rest hsz => ?_, fun a ind indC rest hne hsz => ?_,
      fun o ind indC rest hne hsz => ?_⟩
    · -- parseVal on a printed value
      cases v with
      | str s =>
        have hpv : printVal ind (Json.str s) ++ rest =
            '"' :: (escapeChars s.data ++ ('"' :: rest)) := by
          simp [printVal, printStr]
        rw [hpv, parseVal.eq_def]
        simp only [skipWs_cons_of_not_ws (show isJsonWs '"' = false by decide)]
        simp [parseStrBody_escape]
      | arr a =>
        cases a with
        | nil =>
          have hpv : printVal ind (Json.arr JsonArr.nil) ++ rest =
              '[' :: (']' :: rest) := by
            simp [printVal]
          rw [hpv, parseVal.eq_def]
          simp only [skipWs_cons_of_not_ws (show isJsonWs '[' = false by decide),
            skipWs_cons_of_not_ws (show isJsonWs ']' = false by decide)]
          simp
        | cons h t =>
          have hsz' : asize (JsonArr.cons h t) ≤ fuel := by
            simp only [jsize] at hsz
            omega
          have hpv : printVal ind (Json.arr (JsonArr.cons h t)) ++ rest =
              '[' :: '\n' :: (printItems (ind + 2) (JsonArr.cons h t) ++
                '\n' :: (indentChars ind ++ (']' :: rest))) := by
            simp [printVal]
          rw [hpv, parseVal.eq_def]
          simp only [skipWs_cons_of_not_ws (show isJsonWs '[' = false by decide)]
          obtain ⟨c, tl, hskips, hc1, hc2⟩ :=
            skipWs_printItemsCons (ind + 2) h t ('\n' :: (indentChars ind ++ (']' :: rest)))
          rw [show skipWs ('\n' :: (printItems (ind + 2) (JsonArr.cons h t) ++
              '\n' :: (indentChars ind ++ (']' :: rest)))) = c :: tl from by
            rw [skipWs_cons_of_ws (by decide)]
            exact hskips]
          have hitems : parseItems fuel ('\n' :: (printItems (ind + 2) (JsonArr.cons h t) ++
              '\n' :: (indentChars ind ++ (']' :: rest)))) = some (JsonArr.cons h t, rest) := by
            rw [parseItems_ws_cons (by decide)]
            exact IHa _ _ _ _ (by simp) hsz'
          simp [hc1, hitems]
      | obj o =>
        cases o with
        | nil =>
          have hpv : printVal ind (Json.obj JsonObj.nil) ++ rest =
              '\x7b' :: ('\x7d' :: rest) := by
            simp [printVal]
          rw [hpv, parseVal.eq_def]
          simp only [skipWs_cons_of_not_ws (show isJsonWs '\x7b' = false by decide),
            skipWs_cons_of_not_ws (show isJsonWs '\x7d' = false by decide)]
          simp
        | cons k v t =>
          have hsz' : osize (JsonObj.cons k v t) ≤ fuel := by
            simp only [jsize] at hsz
            omega
          have hpv : printVal ind (Json.obj (JsonObj.cons k v t)) ++ rest =
              '\x7b' :: '\n' :: (printFields (ind + 2) (JsonObj.cons k v t) ++
                '\n' :: (indentChars ind ++ ('\x7d' :: rest))) := by
            simp [printVal]
          rw [hpv, parseVal.eq_def]
          simp only [skipWs_cons_of_not_ws (show isJsonWs '\x7b' = false by decide)]
          obtain ⟨tl, hskips⟩ :=
            skipWs_printFieldsCons (ind + 2) k v t ('\n' :: (indentChars ind ++ ('\x7d' :: rest)))
          rw [show skipWs ('\n' :: (printFields (ind + 2) (JsonObj.cons k v t) ++
              '\n' :: (indentChars ind ++ ('\x7d' :: rest)))) = '"' :: tl from by
            rw [skipWs_cons_of_ws (by decide)]
            exact hskips]
          have hfields : parseFields fuel ('\n' :: (printFields (ind + 2) (JsonObj.cons k v t) ++
              '\n' :: (indentChars ind ++ ('\x7d' :: rest)))) = some (JsonObj.cons k v t, rest) := by
            rw [parseFields_ws_cons (by decide)]
            exact IHo _ _ _ _ (by simp) hsz'
          simp [hfields]
    · -- parseItems on printed members
      cases a with
      | nil => exact absurd rfl hne
      | cons h t =>
        have hjh : jsize h ≤ fuel := by
          have := asize_pos t
          simp only [asize] at hsz
          omega
        cases t with
        | nil =>
          have hshape : printItems ind (JsonArr.cons h JsonArr.nil) ++
              '\n' :: (indentChars indC ++ (']' :: rest)) =
              indentChars ind ++ (printVal ind h ++ ('\n' :: (indentChars indC ++ (']' :: rest)))) := by
            simp [printItems]
          have hskipTail : skipWs ('\n' :: (indentChars indC ++ (']' :: rest))) = ']' :: rest := by
            rw [skipWs_newline_indent, skipWs_cons_of_not_ws (by decide)]
          rw [hshape, parseItems_indent, parseItems_succ,
            IHv h ind ('\n' :: (indentChars indC ++ (']' :: rest))) hjh]
          simp [hskipTail]
        | cons h2 t2 =>
          have hat : asize (JsonArr.cons h2 t2) ≤ fuel := by
            have := jsize_pos h
            simp only [asize] at hsz ⊢
            omega
          have hshape : printItems ind (JsonArr.cons h (JsonArr.cons h2 t2)) ++
              '\n' :: (indentChars indC ++ (']' :: rest)) =
              indentChars ind ++ (printVal ind h ++ (',' :: '\n' ::
                (printItems ind (JsonArr.cons h2 t2) ++
                  '\n' :: (indentChars indC ++ (']' :: rest))))) := by
            simp [printItems]
          have hskipTail : skipWs (',' :: '\n' :: (printItems ind (JsonArr.cons h2 t2) ++
              '\n' :: (indentChars indC ++ (']' :: rest)))) = ',' :: '\n' ::
              (printItems ind (JsonArr.cons h2 t2) ++
                '\n' :: (indentChars indC ++ (']' :: rest))) :=
            skipWs_cons_of_not_ws (by decide) _
          have htail : parseItems fuel ('\n' :: (printItems ind (JsonArr.cons h2 t2) ++
              '\n' :: (indentChars indC ++ (']' :: rest)))) = some (JsonArr.cons h2 t2, rest) := by
            rw [parseItems_ws_cons (by decide)]
            exact IHa _ _ _ _ (by simp) hat
          rw [hshape, parseItems_indent, parseItems_succ,
            IHv h ind (',' :: '\n' :: (printItems ind (JsonArr.cons h2 t2) ++
              '\n' :: (indentChars indC ++ (']' :: rest)))) hjh]
          simp [hskipTail, htail]
    · -- parseFields on printed members
      cases o with
      | nil => exact absurd rfl hne
      | cons k v t =>
        have hjv : jsize v ≤ fuel := by
          have := osize_pos t
          simp only [osize] at hsz
          omega
        cases t with
        | nil =>
          have hshape : printFields ind (JsonObj.cons k v JsonObj.nil) ++
              '\n' :: (indentChars indC ++ ('\x7d' :: rest)) =
              indentChars ind ++ ('"' :: (escapeChars k.data ++ ('"' :: (':' :: ' ' ::
                (printVal ind v ++ ('\n' :: (indentChars indC ++ ('\x7d' :: rest)))))))) := by
            simp [printFields, printStr]
          have hskip0 : skipWs (indentChars ind ++ ('"' :: (escapeChars k.data ++ ('"' :: (':' :: ' ' ::
              (printVal ind v ++ ('\n' :: (indentChars indC ++ ('\x7d' :: rest))))))))) =
              '"' :: (escapeChars k.data ++ ('"' :: (':' :: ' ' ::
              (printVal ind v ++ ('\n' :: (indentChars indC ++ ('\x7d' :: rest))))))) := by
            rw [skipWs_indent, skipWs_cons_of_not_ws (by decide)]
          have hkey : parseStrBody (escapeChars k.data ++ ('"' :: (':' :: ' ' ::
              (printVal ind v ++ ('\n' :: (indentChars indC ++ ('\x7d' :: rest))))))) =
              some (k.data, ':' :: ' ' :: (printVal ind v ++
                ('\n' :: (indentChars indC ++ ('\x7d' :: rest))))) :=
            parseStrBody_escape _ _
          have hskip1 : skipWs (':' :: ' ' :: (printVal ind v ++
              ('\n' :: (indentChars indC ++ ('\x7d' :: rest))))) = ':' :: ' ' ::
              (printVal ind v ++ ('\n' :: (indentChars indC ++ ('\x7d' :: rest)))) :=
            skipWs_cons_of_not_ws (by decide) _
          have hval : parseVal fuel (' ' :: (printVal ind v ++
              ('\n' :: (indentChars indC ++ ('\x7d' :: rest))))) =
              some (v, '\n' :: (indentChars indC ++ ('\x7d' :: rest))) := by
            rw [parseVal_ws_cons (by decide)]
            exact IHv v ind _ hjv
          have hskip2 : skipWs ('\n' :: (indentChars indC ++ ('\x7d' :: rest))) =
              '\x7d' :: rest := by
            rw [skipWs_newline_indent, skipWs_cons_of_not_ws (by decide)]
          rw [hshape, parseFields_succ]
          simp [hskip0, hkey, hskip1, hval, hskip2]
        | cons k2 v2 t2 =>
          have hot : osize (JsonObj.cons k2 v2 t2) ≤ fuel := by
            have := jsize_pos v
            simp only [osize] at hsz ⊢
            omega
          have hshape : printFields ind (JsonObj.cons k v (JsonObj.cons k2 v2 t2)) ++
              '\n' :: (indentChars indC ++ ('\x7d' :: rest)) =
              indentChars ind ++ ('"' :: (escapeChars k.data ++ ('"' :: (':' :: ' ' ::
                (printVal ind v ++ (',' :: '\n' ::
                  (printFields ind (JsonObj.cons k2 v2 t2) ++
                    '\n' :: (indentChars indC ++ ('\x7d' :: rest))))))))) := by
            simp [printFields, printStr]
          have hskip0 : skipWs (indentChars ind ++ ('"' :: (escapeChars k.data ++ ('"' :: (':' :: ' ' ::
              (printVal ind v ++ (',' :: '\n' :: (printFields ind (JsonObj.cons k2 v2 t2) ++
                '\n' :: (indentChars indC ++ ('\x7d' :: rest)))))))))) =
              '"' :: (escapeChars k.data ++ ('"' :: (':' :: ' ' ::
              (printVal ind v ++ (',' :: '\n' :: (printFields ind (JsonObj.cons k2 v2 t2) ++
                '\n' :: (indentChars indC ++ ('\x7d' :: rest)))))))) := by
            rw [skipWs_indent, skipWs_cons_of_not_ws (by decide)]
          have hkey : parseStrBody (escapeChars k.data ++ ('"' :: (':' :: ' ' ::
              (printVal ind v ++ (',' :: '\n' :: (printFields ind (JsonObj.cons k2 v2 t2) ++
                '\n' :: (indentChars indC ++ ('\x7d' :: rest)))))))) =
              some (k.data, ':' :: ' ' :: (printVal ind v ++ (',' :: '\n' ::
                (printFields ind (JsonObj.cons k2 v2 t2) ++
                  '\n' :: (indentChars indC ++ ('\x7d' :: rest)))))) :=
            parseStrBody_escape _ _
          have hskip1 : skipWs (':' :: ' ' :: (printVal ind v ++ (',' :: '\n' ::
              (printFields ind (JsonObj.cons k2 v2 t2) ++
                '\n' :: (indentChars indC ++ ('\x7d' :: rest)))))) = ':' :: ' ' ::
              (printVal ind v ++ (',' :: '\n' :: (printFields ind (JsonObj.cons k2 v2 t2) ++
                '\n' :: (indentChars indC ++ ('\x7d' :: rest))))) :=
            skipWs_cons_of_not_ws (by decide) _
          have hval : parseVal fuel (' ' :: (printVal ind v ++ (',' :: '\n' ::
              (printFields ind (JsonObj.cons k2 v2 t2) ++
                '\n' :: (indentChars indC ++ ('\x7d' :: rest)))))) =
              some (v, ',' :: '\n' :: (printFields ind (JsonObj.cons k2 v2 t2) ++
                '\n' :: (indentChars indC ++ ('\x7d' :: rest)))) := by
            rw [parseVal_ws_cons (by decide)]
            exact IHv v ind _ hjv
          have hskip2 : skipWs (',' :: '\n' :: (printFields ind (JsonObj.cons k2 v2 t2) ++
              '\n' :: (indentChars indC ++ ('\x7d' :: rest)))) = ',' :: '\n' ::
              (printFields ind (JsonObj.cons k2 v2 t2) ++
                '\n' :: (indentChars indC ++ ('\x7d' :: rest))) :=
            skipWs_cons_of_not_ws (by decide) _
          have htail : parseFields fuel ('\n' :: (printFields ind (JsonObj.cons k2 v2 t2) ++
              '\n' :: (indentChars indC ++ ('\x7d' :: rest)))) =
              some (JsonObj.cons k2 v2 t2, rest) := by
            rw [parseFields_ws_cons (by decide)]
            exact IHo _ _ _ _ (by simp) hot
          rw [hshape, parseFields_succ]
          simp [hskip0, hkey, hskip1, hval, hskip2, htail]

/-- The size budget of a value is covered by the length of its printed
form (so the parser budget chosen by `jsonParse` is always adequate). -/
theorem size_le_print_budget (f : Nat) :
    (∀ v ind, jsize v ≤ f → jsize v ≤ (printVal ind v).length) ∧
    (∀ a ind, a ≠ JsonArr.nil → asize a ≤ f → asize a ≤ (printItems ind a).length + 3) ∧
    (∀ o ind, o ≠ JsonObj.nil → osize o ≤ f → osize o ≤ (printFields ind o).length + 3) := by
  induction f using Nat.strong_induction_on with
  | _ f IH =>
  cases f with
  | zero =>
    refine ⟨fun v ind hsz => ?_, fun a ind hne hsz => ?_, fun o ind hne hsz => ?_⟩
    · have := jsize_pos v
      omega
    · have := asize_pos a
      omega
    · have := osize_pos o
      omega
  | succ fuel =>
    obtain ⟨IHv, IHa, IHo⟩ := IH fuel (Nat.lt_succ_self fuel)
    refine ⟨fun v ind hsz => ?_, fun a ind hne hsz => ?_, fun o ind hne hsz => ?_⟩
    · cases v with
      | str s =>
        simp [jsize, printVal, printStr]
      | arr a =>
        cases a with
        | nil => simp [jsize, asize, printVal]
        | cons h t =>
          have hrec := IHa (JsonArr.cons h t) (ind + 2) (by simp)
            (by simp only [jsize] at hsz; omega)
          simp only [jsize] at hsz ⊢
          simp only [printVal, List.length_cons, List.length_append, List.length_replicate,
            indentChars]
          omega
      | obj o =>
        cases o with
        | nil => simp [jsize, osize, printVal]
        | cons k v t =>
          have hrec := IHo (JsonObj.cons k v t) (ind + 2) (by simp)
            (by simp only [jsize] at hsz; omega)
          simp only [jsize] at hsz ⊢
          simp only [printVal, List.length_cons, List.length_append, List.length_replicate,
            indentChars]
          omega
    · cases a with
      | nil => exact absurd rfl hne
      | cons h t =>
        have hjh : jsize h ≤ fuel := by
          have := asize_pos t
          simp only [asize] at hsz
          omega
        have hv := IHv h ind hjh
        cases t with
        | nil =>
          have hshape : printItems ind (JsonArr.cons h JsonArr.nil) =
              indentChars ind ++ printVal ind h ++ [] := rfl
          rw [hshape]
          simp only [asize] at hsz ⊢
          simp only [List.length_append, List.length_nil, asize]
          omega
        | cons h2 t2 =>
          have hrec := IHa (JsonArr.cons h2 t2) ind (by simp)
            (by have := jsize_pos h; simp only [asize] at hsz ⊢; omega)
          have hshape : printItems ind (JsonArr.cons h (JsonArr.cons h2 t2)) =
              indentChars ind ++ printVal ind h ++
                (',' :: '\n' :: printItems ind (JsonArr.cons h2 t2)) := rfl
          rw [hshape]
          simp only [asize] at hsz hrec ⊢
          simp only [List.length_append, List.length_cons]
          omega
    · cases o with
      | nil => exact absurd rfl hne
      | cons k v t =>
        have hjv : jsize v ≤ fuel := by
          have := osize_pos t
          simp only [osize] at hsz
          omega
        have hv := IHv v ind hjv
        cases t with
        | nil =>
          have hshape : printFields ind (JsonObj.cons k v JsonObj.nil) =
              indentChars ind ++ printStr k.data ++ ':' :: ' ' :: printVal ind v ++ [] := rfl
          rw [hshape]
          simp only [osize] at hsz ⊢
          simp only [printStr, List.length_append, List.length_nil, List.length_cons, osize]
          omega
        | cons k2 v2 t2 =>
          have hrec := IHo (JsonObj.cons k2 v2 t2) ind (by simp)
            (by have := jsize_pos v; simp only [osize] at hsz ⊢; omega)
          have hshape : printFields ind (JsonObj.cons k v (JsonObj.cons k2 v2 t2)) =
              indentChars ind ++ printStr k.data ++ ':' :: ' ' :: printVal ind v ++
                (',' :: '\n' :: printFields ind (JsonObj.cons k2 v2 t2)) := rfl
          rw [hshape]
          simp only [osize] at hsz hrec ⊢
          simp only [printStr, List.length_append, List.length_cons]
          omega

/-- Parsing the pretty-printed serialization of any JSON value yields
the value back: the fenced payload block is machine-recoverable. -/
theorem jsonParse_stringifyJson (v : Json) : jsonParse (stringifyJson v) = some v := by
  have hb : jsize v ≤ (printVal 0 v).length :=
    (size_le_print_budget (jsize v)).1 v 0 (Nat.le_refl _)
  have hp := (parse_print_budget ((printVal 0 v).length + 1)).1 v 0 [] (by omega)
  rw [List.append_nil] at hp
  show (match parseVal ((stringifyJson v).data.length + 1) (stringifyJson v).data with
    | some (w, rest) => if skipWs rest = [] then some w else none
    | none => none) = some v
  have hdata : (stringifyJson v).data = printVal 0 v := rfl
  rw [hdata, hp]
  rfl

/-! ## Structure of the joined document -/

theorem joinLines_cons (l : String) (rest : List String) (h : rest ≠ []) :
    joinLines (l :: rest) = l ++ "\n" ++ joinLines rest := by
  cases rest with
  | nil => exact absurd rfl h
  | cons r rest2 => rfl

theorem joinLines_append (A B : List String) (hA : A ≠ []) (hB : B ≠ []) :
    joinLines (A ++ B) = joinLines A ++ "\n" ++ joinLines B := by
  induction A with
  | nil => exact absurd rfl hA
  | cons a A ih =>
    cases A with
    | nil =>
      cases B with
      | nil => exact absurd rfl hB
      | cons b B2 => rfl
    | cons a2 A2 =>
      have h1 : (a2 :: A2 : List String) ≠ [] := by simp
      have h2 : (a2 :: A2 ++ B : List String) ≠ [] := by simp
      rw [List.cons_append, joinLines_cons a _ h2, joinLines_cons a _ h1, ih h1]
      simp [String.append_assoc]

theorem joinLines_flatten_core (B C : List String) (hB : B ≠ []) :
    joinLines (joinLines B :: C) = joinLines (B ++ C) := by
  induction B with
  | nil => exact absurd rfl hB
  | cons b B2 ih =>
    cases B2 with
    | nil => rfl
    | cons b2 B3 =>
      have hne : (b2 :: B3 : List String) ≠ [] := by simp
      cases C with
      | nil =>
        rw [List.append_nil, joinLines_cons b _ hne]
        rfl
      | cons c C2 =>
        have hc : (c :: C2 : List String) ≠ [] := by simp
        rw [joinLines_cons (joinLines (b :: b2 :: B3)) _ hc,
          joinLines_cons b _ hne, List.cons_append,
          joinLines_cons b _ (by simp), joinLines_append (b2 :: B3) (c :: C2) hne hc]
        simp [String.append_assoc]

theorem joinLines_flatten (A B C : List String) (hB : B ≠ []) :
    joinLines (A ++ joinLines B :: C) = joinLines (A ++ (B ++ C)) := by
  induction A with
  | nil => simpa using joinLines_flatten_core B C hB
  | cons a A2 ih =>
    have h1 : (A2 ++ joinLines B :: C : List String) ≠ [] := by simp
    have h2 : (A2 ++ (B ++ C) : List String) ≠ [] := by
      cases B with
      | nil => exact absurd rfl hB
      | cons b B2 => simp
    rw [List.cons_append, joinLines_cons a _ h1, ih, List.cons_append,
      joinLines_cons a _ h2]

/-! ## No fenced block in the body lines -/

theorem hasFence_of_no_newline (a : List Char) (ha : '\n' ∉ a) :
    hasFence a = false := by
  induction a with
  | nil => rfl
  | cons c a2 ih =>
    cases a2 with
    | nil => rfl
    | cons d a3 =>
      have hc : c ≠ '\n' := by
        intro h
        exact ha (by simp [h])
      have hstep : hasFence (c :: d :: a3) =
          if c = '\n' && d = '`' then true else hasFence (d :: a3) := rfl
      rw [hstep, if_neg (by simp [hc])]
      exact ih (by intro h; exact ha (by simp [h]))

theorem hasFence_append (a b : List Char) (ha : '\n' ∉ a) :
    hasFence (a ++ b) = hasFence b := by
  induction a with
  | nil => rfl
  | cons c a2 ih =>
    have hc : c ≠ '\n' := by
      intro h
      exact ha (by simp [h])
    have ha2 : '\n' ∉ a2 := by
      intro h
      exact ha (by simp [h])
    cases a2 with
    | nil =>
      cases b with
      | nil => rfl
      | cons d b2 =>
        show hasFence (c :: d :: b2) = hasFence (d :: b2)
        rw [hasFence.eq_def]
        simp [hc]
    | cons d a3 =>
      show hasFence (c :: ((d :: a3) ++ b)) = hasFence b
      rw [List.cons_append] at ih ⊢
      rw [hasFence.eq_def]
      simp only [List.cons_append]
      rw [if_neg (by simp [hc])]
      exact ih ha2

theorem hasFence_joinLines (lines : List String) (h : ∀ l ∈ lines, lineOk l) :
    hasFence (joinLines lines).data = false ∧
      (joinLines lines).data.head? ≠ some '`' := by
  induction lines with
  | nil => exact ⟨rfl, by simp [joinLines]⟩
  | cons l rest ih =>
    obtain ⟨hl1, hl2⟩ := h l (by simp)
    cases rest with
    | nil =>
      exact ⟨hasFence_of_no_newline _ hl1, hl2⟩
    | cons r rest2 =>
      obtain ⟨ihf, ihh⟩ := ih (fun x hx => h x (by simp [hx]))
      have hdata : (joinLines (l :: r :: rest2)).data =
          l.data ++ ('\n' :: (joinLines (r :: rest2)).data) := by
        rw [joinLines_cons l _ (by simp), String.data_append, String.data_append,
          List.append_assoc]
        rfl
      constructor
      · rw [hdata, hasFence_append _ _ hl1]
        cases hR : (joinLines (r :: rest2)).data with
        | nil => rfl
        | cons d R2 =>
          have hd : d ≠ '`' := by
            intro hdq
            apply ihh
            simp [hR, hdq]
          have hstep : hasFence ('\n' :: d :: R2) =
              if '\n' = '\n' && d = '`' then true else hasFence (d :: R2) := rfl
          rw [hstep, if_neg (by simp [hd]), ← hR]
          exact ihf
      · rw [hdata]
        cases hl : l.data with
        | nil => simp
        | cons c l2 =>
          have hcq : c ≠ '`' := by
            intro hc
            apply hl2
            simp [hl, hc]
          simp [hcq]

theorem hasFence_append_general (a b : List Char) (ha : hasFence a = false)
    (hb : hasFence b = false)
    (hcross : b.head? ≠ some '`') :
    hasFence (a ++ b) = false := by
  induction a with
  | nil => simpa using hb
  | cons c a2 ih =>
    cases a2 with
    | nil =>
      cases b with
      | nil => simpa using ha
      | cons d b2 =>
        have hd : d ≠ '`' := by
          intro h
          exact hcross (by simp [h])
        have hstep : hasFence (c :: d :: b2) =
            if c = '\n' && d = '`' then true else hasFence (d :: b2) := rfl
        show hasFence (c :: d :: b2) = false
        rw [hstep, if_neg (by simp [hd])]
        exact hb
    | cons c2 a3 =>
      have hstep : hasFence (c :: c2 :: a3) =
          if c = '\n' && c2 = '`' then true else hasFence (c2 :: a3) := rfl
      rw [hstep] at ha
      by_cases hP : (c = '\n' && c2 = '`') = true
      · rw [if_pos hP] at ha
        exact absurd ha (by simp)
      · rw [if_neg hP] at ha
        have hstep2 : hasFence (c :: c2 :: (a3 ++ b)) =
            if c = '\n' && c2 = '`' then true else hasFence (c2 :: (a3 ++ b)) := rfl
        show hasFence (c :: c2 :: (a3 ++ b)) = false
        rw [hstep2, if_neg hP]
        exact ih ha

/-- Joining parts none of which contains a fence opener, none of which
begins with a backtick, cannot create a fence opener: the separator
newline is only ever followed by the head of a part. -/
theorem hasFence_joinLines_parts (parts : List String)
    (h : ∀ p ∈ parts, hasFence p.data = false ∧ p.data.head? ≠ some '`') :
    hasFence (joinLines parts).data = false ∧
      (joinLines parts).data.head? ≠ some '`' := by
  induction parts with
  | nil => exact ⟨rfl, by simp [joinLines]⟩
  | cons p rest ih =>
    obtain ⟨hp1, hp2⟩ := h p (by simp)
    cases rest with
    | nil => exact ⟨hp1, hp2⟩
    | cons r rest2 =>
      obtain ⟨ihf, ihh⟩ := ih (fun x hx => h x (by simp [hx]))
      have hdata : (joinLines (p :: r :: rest2)).data =
          p.data ++ ('\n' :: (joinLines (r :: rest2)).data) := by
        rw [joinLines_cons p _ (by simp), String.data_append, String.data_append,
          List.append_assoc]
        rfl
      have htail : hasFence ('\n' :: (joinLines (r :: rest2)).data) = false := by
        cases hR : (joinLines (r :: rest2)).data with
        | nil => rfl
        | cons d R2 =>
          have hd : d ≠ '`' := by
            intro hdq
            apply ihh
            simp [hR, hdq]
          have hstep : hasFence ('\n' :: d :: R2) =
              if '\n' = '\n' && d = '`' then true else hasFence (d :: R2) := rfl
          rw [hstep, if_neg (by simp [hd]), ← hR]
          exact ihf
      constructor
      · rw [hdata]
        exact hasFence_append_general _ _ hp1 htail (by simp)
      · rw [hdata]
        cases hl : p.data with
        | nil => simp
        | cons c l2 =>
          have hcq : c ≠ '`' := by
            intro hc
            apply hp2
            simp [hl, hc]
          simp [hcq]

/-! ## Body lines are fence-free -/

theorem mem_collapseWsAux (b : Bool) (cs : List Char) :
    ∀ c ∈ collapseWsAux b cs, c = ' ' ∨ isJsWs c = false := by
  induction cs generalizing b with
  | nil => simp [collapseWsAux]
  | cons d cs2 ih =>
    intro c hc
    simp only [collapseWsAux] at hc
    by_cases hw : isJsWs d
    · rw [if_pos hw] at hc
      cases b with
      | true =>
        rw [if_pos rfl] at hc
        exact ih true c hc
      | false =>
        rw [if_neg (by simp)] at hc
        rcases List.mem_cons.mp hc with h | h
        · exact Or.inl h
        · exact ih true c h
    · rw [if_neg hw] at hc
      rcases List.mem_cons.mp hc with h | h
      · subst h
        exact Or.inr (by simpa using hw)
      · exact ih false c h

theorem trimChars_subset (cs : List Char) : ∀ c ∈ trimChars cs, c ∈ cs := by
  intro c hc
  simp only [trimChars, List.mem_reverse] at hc
  have h1 := (List.dropWhile_sublist isJsWs).subset hc
  rw [List.mem_reverse] at h1
  exact (List.dropWhile_sublist isJsWs).subset h1

theorem no_newline_clean (s : String) : '\n' ∉ (clean s).data := by
  intro hc
  have h1 : '\n' ∈ trimChars (collapseWsAux false s.data) := hc
  have h2 := trimChars_subset _ _ h1
  rcases mem_collapseWsAux false s.data '\n' h2 with h | h
  · exact absurd h (by decide)
  · exact absurd h (by decide)

theorem mem_natCharsAux (f n : Nat) :
    ∀ c ∈ natCharsAux f n, ∃ d, d < 10 ∧ c = digitChar d := by
  induction f generalizing n with
  | zero => simp [natCharsAux]
  | succ f2 ih =>
    intro c hc
    simp only [natCharsAux] at hc
    by_cases hn : n < 10
    · rw [if_pos hn] at hc
      simp at hc
      exact ⟨n, hn, hc⟩
    · rw [if_neg hn] at hc
      rcases List.mem_append.mp hc with h | h
      · exact ih (n / 10) c h
      · rw [List.mem_singleton] at h
        exact ⟨n % 10, Nat.mod_lt _ (by omega), h⟩

theorem no_newline_natStr (n : Nat) : '\n' ∉ (natStr n).data := by
  intro hc
  obtain ⟨d, hd, hcd⟩ := mem_natCharsAux (n + 1) n '\n' hc
  have : ('\n' : Char) ≠ digitChar d := by
    interval_cases d <;> decide
  exact this hcd

theorem noNl_append {a b : String} (ha : noNl a) (hb : noNl b) : noNl (a ++ b) := by
  intro hc
  rw [String.data_append] at hc
  rcases List.mem_append.mp hc with h | h
  · exact ha h
  · exact hb h

theorem noNl_clean (s : String) : noNl (clean s) := no_newline_clean s

theorem noNl_natStr (n : Nat) : noNl (natStr n) := no_newline_natStr n

theorem noNl_joinWith {sep : String} (hsep : noNl sep) (parts : List String)
    (h : ∀ p ∈ parts, noNl p) : noNl (joinWith sep parts) := by
  induction parts with
  | nil =>
    intro hc
    simp [joinWith] at hc
  | cons p rest ih =>
    cases rest with
    | nil => exact h p (by simp)
    | cons r rest2 =>
      show noNl (p ++ sep ++ joinWith sep (r :: rest2))
      exact noNl_append (noNl_append (h p (by simp)) hsep)
        (ih (fun x hx => h x (by simp [hx])))

theorem lineOk_dash {s : String} (hs : noNl s) : lineOk ("- " ++ s) := by
  constructor
  · have : noNl ("- " ++ s) := noNl_append (by intro hc; exact absurd hc (by decide)) hs
    exact this
  · rw [String.data_append, show ("- " : String).data = '-' :: [' '] from rfl,
      List.cons_append]
    simp

theorem lineOk_overflowLine (n : Nat) : lineOk (overflowLine n) := by
  have h1 : noNl (overflowLine n) := by
    apply noNl_append
    · apply noNl_append
      · intro hc
        exact absurd hc (by decide)
      · exact noNl_natStr n
    · intro hc
      exact absurd hc (by decide)
  refine ⟨h1, ?_⟩
  show ((("- ... (+" ++ natStr n) ++ " more)")).data.head? ≠ some '`'
  rw [String.data_append, String.data_append,
    show ("- ... (+" : String).data = '-' :: " ... (+".data from rfl,
    List.cons_append, List.cons_append]
  simp

theorem lineOk_none : lineOk "- None" := by
  constructor
  · intro hc
    exact absurd hc (by decide)
  · decide

theorem noNl_empty : noNl "" := by
  intro hc
  exact absurd hc (by decide)

theorem lineOk_pre (p : String) (hp : noNl p) (hh : p.data.head? = some '-')
    {s : String} (hs : noNl s) : lineOk (p ++ s) := by
  constructor
  · exact noNl_append hp hs
  · rw [String.data_append]
    cases hd : p.data with
    | nil =>
      rw [hd] at hh
      simp at hh
    | cons c l2 =>
      rw [hd] at hh
      simp at hh
      rw [List.cons_append]
      simp [hh]

theorem noNl_metaText (L : List String) (h : ∀ p ∈ L, noNl p) :
    noNl (if L.length ≠ 0 then " (" ++ joinWith "; " L ++ ")" else "") := by
  by_cases hl : L.length ≠ 0
  · rw [if_pos hl]
    exact noNl_append (noNl_append (by intro hc; exact absurd hc (by decide))
      (noNl_joinWith (by intro hc; exact absurd hc (by decide)) L h))
      (by intro hc; exact absurd hc (by decide))
  · rw [if_neg hl]
    exact noNl_empty

theorem lineOk_item (a : String) (M : String) (hM : noNl M) :
    lineOk ("- " ++ clean a ++ M) := by
  rw [String.append_assoc]
  exact lineOk_pre "- " (by intro hc; exact absurd hc (by decide)) (by decide)
    (noNl_append (noNl_clean a) hM)

theorem lineOk_item2 (pre : String) (L : List String)
    (hpre : noNl pre) (h : ∀ p ∈ L, noNl p) :
    lineOk ("- " ++ pre ++ " (" ++ joinWith "; " L ++ ")") := by
  have heq : "- " ++ pre ++ " (" ++ joinWith "; " L ++ ")" =
      "- " ++ (pre ++ (" (" ++ (joinWith "; " L ++ ")"))) := by
    simp [String.append_assoc]
  rw [heq]
  exact lineOk_pre "- " (by intro hc; exact absurd hc (by decide)) (by decide)
    (noNl_append hpre (noNl_append (by intro hc; exact absurd hc (by decide))
      (noNl_append (noNl_joinWith (by intro hc; exact absurd hc (by decide)) L h)
        (by intro hc; exact absurd hc (by decide)))))

theorem noNl_optMeta (label : String) (hlabel : noNl label) (o : Option String) :
    ∀ p ∈ (match o with
            | some v => if v.isEmpty then [] else [label ++ clean v]
            | none => ([] : List String)), noNl p := by
  intro p hp
  cases o with
  | none => simp at hp
  | some v =>
    have hred : (match some v with
        | some w => if w.isEmpty then [] else [label ++ clean w]
        | none => ([] : List String)) =
        if v.isEmpty then [] else [label ++ clean v] := rfl
    rw [hred] at hp
    by_cases he : v.isEmpty
    · rw [if_pos he] at hp
      simp at hp
    · rw [if_neg he] at hp
      rw [List.mem_singleton] at hp
      subst hp
      exact noNl_append hlabel (noNl_clean v)

theorem lineOk_questionLine (q : OpenQuestion) : lineOk (questionLine q) := by
  simp only [questionLine]
  apply lineOk_item
  apply noNl_metaText
  intro p hp
  rcases List.mem_append.mp hp with h | h
  · exact noNl_optMeta "Owner: " (by intro hc; exact absurd hc (by decide)) q.owner p h
  · exact noNl_optMeta "Due: " (by intro hc; exact absurd hc (by decide)) q.due p h

theorem lineOk_stakeholderLine (s : Stakeholder) : lineOk (stakeholderLine s) := by
  simp only [stakeholderLine]
  apply lineOk_item
  apply noNl_metaText
  intro p hp
  rcases List.mem_append.mp hp with h | h
  · exact noNl_optMeta "Role: " (by intro hc; exact absurd hc (by decide)) s.role p h
  · exact noNl_optMeta "Influence: " (by intro hc; exact absurd hc (by decide)) s.influence p h

theorem lineOk_nextStepLine (n : NextStep)
    (hst : n.status = "open" ∨ n.status = "done") : lineOk (nextStepLine n) := by
  simp only [nextStepLine]
  apply lineOk_item2
  · exact noNl_clean n.action
  · intro p hp
    rcases List.mem_append.mp hp with h | h
    · rcases List.mem_append.mp h with h2 | h2
      · rw [List.mem_singleton] at h2
        subst h2
        apply noNl_append (by intro hc; exact absurd hc (by decide))
        rcases hst with h3 | h3 <;> rw [h3] <;> intro hc <;> exact absurd hc (by decide)
      · exact noNl_optMeta "Owner: " (by intro hc; exact absurd hc (by decide)) n.owner p h2
    · exact noNl_optMeta "Due: " (by intro hc; exact absurd hc (by decide)) n.due p h

theorem lineOk_riskLine (r : Risk)
    (hsev : r.severity = "low" ∨ r.severity = "med" ∨ r.severity = "high") :
    lineOk (riskLine r) := by
  simp only [riskLine]
  have hsevU : noNl (strToUpper r.severity) := by
    rcases hsev with h | h | h <;> rw [h] <;> intro hc <;> exact absurd hc (by decide)
  have hM : noNl (match r.mitigation with
      | some m => if m.isEmpty then "" else " (Mitigation: " ++ clean m ++ ")"
      | none => "") := by
    cases r.mitigation with
    | none => exact noNl_empty
    | some m =>
      show noNl (if m.isEmpty then "" else " (Mitigation: " ++ clean m ++ ")")
      by_cases he : m.isEmpty
      · rw [if_pos he]
        exact noNl_empty
      · rw [if_neg he]
        exact noNl_append (noNl_append (by intro hc; exact absurd hc (by decide))
          (noNl_clean m)) (by intro hc; exact absurd hc (by decide))
  have heq : "- [" ++ strToUpper r.severity ++ "] " ++ clean r.risk ++
      (match r.mitigation with
       | some m => if m.isEmpty then "" else " (Mitigation: " ++ clean m ++ ")"
       | none => "") =
      "- [" ++ (strToUpper r.severity ++ ("] " ++ (clean r.risk ++
      (match r.mitigation with
       | some m => if m.isEmpty then "" else " (Mitigation: " ++ clean m ++ ")"
       | none => "")))) := by
    simp [String.append_assoc]
  rw [heq]
  exact lineOk_pre "- [" (by intro hc; exact absurd hc (by decide)) (by decide)
    (noNl_append hsevU (noNl_append (by intro hc; exact absurd hc (by decide))
      (noNl_append (noNl_clean r.risk) hM)))

theorem limitItems_fst_subset {α : Type} (items : List α) :
    ∀ y ∈ (limitItems items).1, y ∈ items := by
  intro y hy
  unfold limitItems at hy
  by_cases hle : items.length ≤ MAX_ITEMS
  · rw [if_pos hle] at hy
    exact hy
  · rw [if_neg hle] at hy
    exact List.take_subset _ _ hy

theorem formatListLines_ok (xs : List String) :
    ∀ l ∈ formatListLines xs, lineOk l := by
  intro l hl
  simp only [formatListLines] at hl
  by_cases hr : (limitItems xs).2 ≠ 0
  · rw [if_pos hr] at hl
    rcases List.mem_append.mp hl with h2 | h2
    · obtain ⟨x, hx, rfl⟩ := List.mem_map.mp h2
      exact lineOk_dash (noNl_clean x)
    · rw [List.mem_singleton] at h2
      subst h2
      exact lineOk_overflowLine _
  · rw [if_neg hr] at hl
    obtain ⟨x, hx, rfl⟩ := List.mem_map.mp hl
    exact lineOk_dash (noNl_clean x)

theorem formatQuestionsLines_ok (xs : List OpenQuestion) :
    ∀ l ∈ formatQuestionsLines xs, lineOk l := by
  intro l hl
  simp only [formatQuestionsLines] at hl
  by_cases hr : (limitItems xs).2 ≠ 0
  · rw [if_pos hr] at hl
    rcases List.mem_append.mp hl with h2 | h2
    · obtain ⟨x, hx, rfl⟩ := List.mem_map.mp h2
      exact lineOk_questionLine x
    · rw [List.mem_singleton] at h2
      subst h2
      exact lineOk_overflowLine _
  · rw [if_neg hr] at hl
    obtain ⟨x, hx, rfl⟩ := List.mem_map.mp hl
    exact lineOk_questionLine x

theorem formatNextStepsLines_ok (xs : List NextStep)
    (hst : ∀ n ∈ xs, n.status = "open" ∨ n.status = "done") :
    ∀ l ∈ formatNextStepsLines xs, lineOk l := by
  intro l hl
  simp only [formatNextStepsLines] at hl
  by_cases hr : (limitItems xs).2 ≠ 0
  · rw [if_pos hr] at hl
    rcases List.mem_append.mp hl with h2 | h2
    · obtain ⟨x, hx, rfl⟩ := List.mem_map.mp h2
      exact lineOk_nextStepLine x (hst x (limitItems_fst_subset xs x hx))
    · rw [List.mem_singleton] at h2
      subst h2
      exact lineOk_overflowLine _
  · rw [if_neg hr] at hl
    obtain ⟨x, hx, rfl⟩ := List.mem_map.mp hl
    exact lineOk_nextStepLine x (hst x (limitItems_fst_subset xs x hx))

theorem formatRisksLines_ok (xs : List Risk)
    (hsev : ∀ r ∈ xs, r.severity = "low" ∨ r.severity = "med" ∨ r.severity = "high") :
    ∀ l ∈ formatRisksLines xs, lineOk l := by
  intro l hl
  simp only [formatRisksLines] at hl
  by_cases hr : (limitItems xs).2 ≠ 0
  · rw [if_pos hr] at hl
    rcases List.mem_append.mp hl with h2 | h2
    · obtain ⟨x, hx, rfl⟩ := List.mem_map.mp h2
      exact lineOk_riskLine x (hsev x (limitItems_fst_subset xs x hx))
    · rw [List.mem_singleton] at h2
      subst h2
      exact lineOk_overflowLine _
  · rw [if_neg hr] at hl
    obtain ⟨x, hx, rfl⟩ := List.mem_map.mp hl
    exact lineOk_riskLine x (hsev x (limitItems_fst_subset xs x hx))

theorem formatStakeholdersLines_ok (xs : List Stakeholder) :
    ∀ l ∈ formatStakeholdersLines xs, lineOk l := by
  intro l hl
  simp only [formatStakeholdersLines] at hl
  by_cases hr : (limitItems xs).2 ≠ 0
  · rw [if_pos hr] at hl
    rcases List.mem_append.mp hl with h2 | h2
    · obtain ⟨x, hx, rfl⟩ := List.mem_map.mp h2
      exact lineOk_stakeholderLine x
    · rw [List.mem_singleton] at h2
      subst h2
      exact lineOk_overflowLine _
  · rw [if_neg hr] at hl
    obtain ⟨x, hx, rfl⟩ := List.mem_map.mp hl
    exact lineOk_stakeholderLine x

theorem partOk_of_lineOk {l : String} (h : lineOk l) : partOk l :=
  ⟨hasFence_of_no_newline _ h.1, h.2⟩

theorem partOk_joined (lines : List String) (h : ∀ l ∈ lines, lineOk l) :
    partOk (joinLines lines) := by
  have := hasFence_joinLines_parts lines (fun p hp => partOk_of_lineOk (h p hp))
  exact this

theorem partOk_formatList (xs : List String) : partOk (formatList xs) := by
  unfold formatList
  by_cases h0 : xs.length = 0
  · rw [if_pos h0]
    exact ⟨by decide, by decide⟩
  · rw [if_neg h0]
    exact partOk_joined _ (formatListLines_ok xs)

theorem partOk_formatQuestions (xs : List OpenQuestion) :
    partOk (formatQuestions xs) := by
  unfold formatQuestions
  by_cases h0 : xs.length = 0
  · rw [if_pos h0]
    exact ⟨by decide, by decide⟩
  · rw [if_neg h0]
    exact partOk_joined _ (formatQuestionsLines_ok xs)

theorem partOk_formatNextSteps (xs : List NextStep)
    (hst : ∀ n ∈ xs, n.status = "open" ∨ n.status = "done") :
    partOk (formatNextSteps xs) := by
  unfold formatNextSteps
  by_cases h0 : xs.length = 0
  · rw [if_pos h0]
    exact ⟨by decide, by decide⟩
  · rw [if_neg h0]
    exact partOk_joined _ (formatNextStepsLines_ok xs hst)

theorem partOk_formatRisks (xs : List Risk)
    (hsev : ∀ r ∈ xs, r.severity = "low" ∨ r.severity = "med" ∨ r.severity = "high") :
    partOk (formatRisks xs) := by
  unfold formatRisks
  by_cases h0 : xs.length = 0
  · rw [if_pos h0]
    exact ⟨by decide, by decide⟩
  · rw [if_neg h0]
    exact partOk_joined _ (formatRisksLines_ok xs hsev)

theorem partOk_formatStakeholders (xs : List Stakeholder) :
    partOk (formatStakeholders xs) := by
  unfold formatStakeholders
  by_cases h0 : xs.length = 0
  · rw [if_pos h0]
    exact ⟨by decide, by decide⟩
  · rw [if_neg h0]
    exact partOk_joined _ (formatStakeholdersLines_ok xs)

theorem headerLines_ok (x : SummarizeInput) : ∀ l ∈ headerLines x, lineOk l := by
  intro l hl
  unfold headerLines at hl
  rcases List.mem_append.mp hl with h1 | h1
  · rcases List.mem_append.mp h1 with h2 | h2
    · rcases List.mem_append.mp h2 with h3 | h3
      · simp only [List.mem_cons, List.not_mem_nil, or_false] at h3
        rcases h3 with h4 | h4 | h4
        · subst h4
          exact ⟨by intro hc; exact absurd hc (by decide), by decide⟩
        · subst h4
          exact lineOk_pre "- Deal: " (by intro hc; exact absurd hc (by decide)) (by decide)
            (noNl_clean _)
        · subst h4
          exact lineOk_pre "- Summary: " (by intro hc; exact absurd hc (by decide)) (by decide)
            (noNl_clean _)
      · cases hdn : x.deal_name with
        | none =>
          rw [hdn] at h3
          simp at h3
        | some dn =>
          cases hdi : x.deal_id with
          | none =>
            rw [hdn, hdi] at h3
            simp at h3
          | some di =>
            simp only [hdn, hdi] at h3
            split at h3
            · rw [List.mem_singleton] at h3
              subst h3
              exact lineOk_pre "- Deal ID: " (by intro hc; exact absurd hc (by decide))
                (by decide) (noNl_clean _)
            · simp at h3
    · cases hsc : x.source_canvas_name with
      | none =>
        rw [hsc] at h2
        simp at h2
      | some sc =>
        simp only [hsc] at h2
        split at h2
        · simp at h2
        · rw [List.mem_singleton] at h2
          subst h2
          exact lineOk_pre "- Source Canvas: " (by intro hc; exact absurd hc (by decide)) (by decide)
            (noNl_clean _)
  · cases hlu : x.context.last_updated with
    | none =>
      rw [hlu] at h1
      simp at h1
    | some lu =>
      simp only [hlu] at h1
      split at h1
      · simp at h1
      · rw [List.mem_singleton] at h1
        subst h1
        exact lineOk_pre "- Last Updated: " (by intro hc; exact absurd hc (by decide))
          (by decide) (noNl_clean _)

/-- In the `exec_bullets` format every joined part is fence-free, so the
whole document contains no fence opener at a line start. -/
theorem formatSummary_exec_noFence (x : SummarizeInput)
    (hx : x.output_format = "exec_bullets") (hv : validEnums x) :
    hasFence (formatSummary x).data = false := by
  obtain ⟨hst, hsev⟩ := hv
  refine (hasFence_joinLines_parts (formatSummaryParts x) ?_).1
  intro p hp
  unfold formatSummaryParts at hp
  rw [if_pos hx, List.append_nil] at hp
  rcases List.mem_append.mp hp with h1 | h1
  · rcases List.mem_append.mp h1 with h2 | h2
    · rcases List.mem_append.mp h2 with h3 | h3
      · rcases List.mem_append.mp h3 with h4 | h4
        · rcases List.mem_append.mp h4 with h5 | h5
          · exact partOk_of_lineOk (headerLines_ok x p h5)
          · simp only [List.mem_cons, List.not_mem_nil, or_false] at h5
            rcases h5 with h6 | h6 | h6
            · subst h6
              exact ⟨by decide, by decide⟩
            · subst h6
              exact ⟨by decide, by decide⟩
            · subst h6
              exact partOk_formatList _
        · simp only [List.mem_cons, List.not_mem_nil, or_false] at h4
          rcases h4 with h6 | h6 | h6
          · subst h6
            exact ⟨by decide, by decide⟩
          · subst h6
            exact ⟨by decide, by decide⟩
          · subst h6
            exact partOk_formatRisks _ hsev
      · simp only [List.mem_cons, List.not_mem_nil, or_false] at h3
        rcases h3 with h6 | h6 | h6
        · subst h6
          exact ⟨by decide, by decide⟩
        · subst h6
          exact ⟨by decide, by decide⟩
        · subst h6
          exact partOk_formatQuestions _
    · simp only [List.mem_cons, List.not_mem_nil, or_false] at h2
      rcases h2 with h6 | h6 | h6
      · subst h6
        exact ⟨by decide, by decide⟩
      · subst h6
        exact ⟨by decide, by decide⟩
      · subst h6
        exact partOk_formatNextSteps _ hst
  · simp only [List.mem_cons, List.not_mem_nil, or_false] at h1
    rcases h1 with h6 | h6 | h6
    · subst h6
      exact ⟨by decide, by decide⟩
    · subst h6
      exact ⟨by decide, by decide⟩
    · subst h6
      exact partOk_formatStakeholders _

theorem append7_regroup (a1 a2 a3 a4 a5 a6 a7 X : String) :
    a1 ++ (a2 ++ (a3 ++ (a4 ++ (a5 ++ (a6 ++ (a7 ++ X)))))) =
      (a1 ++ (a2 ++ (a3 ++ (a4 ++ (a5 ++ (a6 ++ a7)))))) ++ X := by
  simp [String.append_assoc]

theorem headerLines_ne_nil (x : SummarizeInput) : headerLines x ≠ [] := by
  unfold headerLines
  simp

/-- For the non-`exec_bullets` formats the rendered document ends with a
newline, a fence line, the serialized validated request, and a closing
fence. -/
theorem formatSummary_fenced (x : SummarizeInput)
    (hx : x.output_format ≠ "exec_bullets") :
    ∃ q : String, formatSummary x =
      q ++ ("\n\n### Structured Payload (for ETL)\n```json\n" ++
        (stringifyJson (toJson x) ++ "\n```")) := by
  have hbase : (headerLines x ++
      ["", "## Key Points", formatList x.context.key_points] ++
      ["", "## Risks", formatRisks x.context.risks] ++
      ["", "## Open Questions", formatQuestions x.context.open_questions] ++
      ["", "## Next Steps", formatNextSteps x.context.next_steps] ++
      ["", "## Stakeholders", formatStakeholders x.context.stakeholders]) ≠ [] := by
    simp [headerLines_ne_nil x]
  have hparts : formatSummaryParts x =
      (headerLines x ++
        ["", "## Key Points", formatList x.context.key_points] ++
        ["", "## Risks", formatRisks x.context.risks] ++
        ["", "## Open Questions", formatQuestions x.context.open_questions] ++
        ["", "## Next Steps", formatNextSteps x.context.next_steps] ++
        ["", "## Stakeholders", formatStakeholders x.context.stakeholders]) ++
      ["", "### Structured Payload (for ETL)", "```json",
        stringifyJson (toJson x), "```"] := by
    unfold formatSummaryParts
    rw [if_neg hx]
  refine ⟨joinLines (headerLines x ++
      ["", "## Key Points", formatList x.context.key_points] ++
      ["", "## Risks", formatRisks x.context.risks] ++
      ["", "## Open Questions", formatQuestions x.context.open_questions] ++
      ["", "## Next Steps", formatNextSteps x.context.next_steps] ++
      ["", "## Stakeholders", formatStakeholders x.context.stakeholders]), ?_⟩
  rw [formatSummary, hparts, joinLines_append _ _ hbase (by simp)]
  have hJ5 : joinLines ["", "### Structured Payload (for ETL)", "```json",
      stringifyJson (toJson x), "```"] =
      "" ++ "\n" ++ ("### Structured Payload (for ETL)" ++ "\n" ++
        ("```json" ++ "\n" ++ (stringifyJson (toJson x) ++ "\n" ++ "```"))) := rfl
  rw [hJ5]
  simp only [String.append_assoc]
  congr 1

/-! ## Validated requests carry the declared enum literals -/

theorem vEnum_ok {path : List PathSeg} {choices : List String} {ov : Option JSVal}
    {s : String} (h : vEnum path choices ov = Except.ok s) : s ∈ choices := by
  cases ov with
  | none => simp [vEnum] at h
  | some v =>
    cases v with
    | str str =>
      simp only [vEnum] at h
      by_cases hc : choices.contains str
      · rw [if_pos hc] at h
        injection h with h2
        subst h2
        simpa using hc
      · rw [if_neg hc] at h
        simp at h
    | null => simp [vEnum] at h
    | bool b => simp [vEnum] at h
    | num n => simp [vEnum] at h
    | arr xs => simp [vEnum] at h
    | obj o => simp [vEnum] at h

theorem vNextStep_status {path : List PathSeg} {v : JSVal} {n : NextStep}
    (h : vNextStep path v = Except.ok n) :
    n.status = "open" ∨ n.status = "done" := by
  cases v with
  | obj fields =>
    simp only [vNextStep] at h
    cases ha : vString (path ++ [PathSeg.key "action"]) (objLookup fields "action") with
    | error ia => simp only [ha] at h; simp at h
    | ok a =>
      cases ho : vStringOpt (path ++ [PathSeg.key "owner"]) (objLookup fields "owner") with
      | error io => simp only [ha, ho] at h; simp at h
      | ok o =>
        cases hd : vStringOpt (path ++ [PathSeg.key "due"]) (objLookup fields "due") with
        | error idd => simp only [ha, ho, hd] at h; simp at h
        | ok d =>
          cases hst : vEnum (path ++ [PathSeg.key "status"]) ["open", "done"]
              (objLookup fields "status") with
          | error ist => simp only [ha, ho, hd, hst] at h; simp at h
          | ok st =>
            simp only [ha, ho, hd, hst] at h
            injection h with h2
            subst h2
            simpa using vEnum_ok hst
  | null => simp [vNextStep] at h
  | bool b => simp [vNextStep] at h
  | num m => simp [vNextStep] at h
  | str s => simp [vNextStep] at h
  | arr xs => simp [vNextStep] at h

theorem vRisk_severity {path : List PathSeg} {v : JSVal} {r : Risk}
    (h : vRisk path v = Except.ok r) :
    r.severity = "low" ∨ r.severity = "med" ∨ r.severity = "high" := by
  cases v with
  | obj fields =>
    simp only [vRisk] at h
    cases hr : vString (path ++ [PathSeg.key "risk"]) (objLookup fields "risk") with
    | error ir => simp only [hr] at h; simp at h
    | ok rk =>
      cases hs : vEnum (path ++ [PathSeg.key "severity"]) ["low", "med", "high"]
          (objLookup fields "severity") with
      | error is2 => simp only [hr, hs] at h; simp at h
      | ok sev =>
        cases hm : vStringOpt (path ++ [PathSeg.key "mitigation"])
            (objLookup fields "mitigation") with
        | error im => simp only [hr, hs, hm] at h; simp at h
        | ok m =>
          simp only [hr, hs, hm] at h
          injection h with h2
          subst h2
          simpa using vEnum_ok hs
  | null => simp [vRisk] at h
  | bool b => simp [vRisk] at h
  | num m => simp [vRisk] at h
  | str s => simp [vRisk] at h
  | arr xs => simp [vRisk] at h

theorem vElems_ok_forall {α : Type} {path : List PathSeg}
    {elem : List PathSeg → JSVal → Except (List Issue) α} (P : α → Prop)
    (helem : ∀ p v a, elem p v = Except.ok a → P a) :
    ∀ (i : Nat) (xs : List JSVal) (as : List α),
      vElems path elem i xs = Except.ok as → ∀ a ∈ as, P a := by
  intro i xs
  induction xs generalizing i with
  | nil =>
    intro as h a ha
    simp only [vElems] at h
    injection h with h2
    subst h2
    simp at ha
  | cons x rest ih =>
    intro as h a ha
    simp only [vElems] at h
    cases hx : elem (path ++ [PathSeg.idx i]) x with
    | error ie => simp only [hx] at h; simp at h
    | ok b =>
      cases hrest : vElems path elem (i + 1) rest with
      | error ir => simp only [hx, hrest] at h; simp at h
      | ok bs =>
        simp only [hx, hrest] at h
        injection h with h2
        subst h2
        rcases List.mem_cons.mp ha with h3 | h3
        · subst h3
          exact helem _ _ _ hx
        · exact ih (i + 1) bs hrest a h3

theorem vArrD_ok_forall {α : Type} {path : List PathSeg}
    {elem : List PathSeg → JSVal → Except (List Issue) α} (P : α → Prop)
    (helem : ∀ p v a, elem p v = Except.ok a → P a)
    {ov : Option JSVal} {as : List α}
    (h : vArrD path elem ov = Except.ok as) : ∀ a ∈ as, P a := by
  cases ov with
  | none =>
    simp only [vArrD] at h
    injection h with h2
    subst h2
    simp
  | some v =>
    cases v with
    | arr xs => exact vElems_ok_forall P helem 0 xs as h
    | null => simp [vArrD] at h
    | bool b => simp [vArrD] at h
    | num m => simp [vArrD] at h
    | str s => simp [vArrD] at h
    | obj o => simp [vArrD] at h

theorem vContext_enums {path : List PathSeg} {ov : Option JSVal} {ctx : Context}
    (h : vContext path ov = Except.ok ctx) :
    (∀ n ∈ ctx.next_steps, n.status = "open" ∨ n.status = "done") ∧
    (∀ r ∈ ctx.risks, r.severity = "low" ∨ r.severity = "med" ∨ r.severity = "high") := by
  cases ov with
  | none => simp [vContext] at h
  | some v =>
    cases v with
    | obj fields =>
      simp only [vContext] at h
      cases h1 : vString (path ++ [PathSeg.key "summary"]) (objLookup fields "summary") with
      | error i1 => simp only [h1] at h; simp at h
      | ok su =>
        cases h2 : vArrD (path ++ [PathSeg.key "key_points"])
            (fun p v => vString p (some v)) (objLookup fields "key_points") with
        | error i2 => simp only [h1, h2] at h; simp at h
        | ok kp =>
          cases h3 : vArrD (path ++ [PathSeg.key "open_questions"]) vOpenQuestion
              (objLookup fields "open_questions") with
          | error i3 => simp only [h1, h2, h3] at h; simp at h
          | ok oq =>
            cases h4 : vArrD (path ++ [PathSeg.key "next_steps"]) vNextStep
                (objLookup fields "next_steps") with
            | error i4 => simp only [h1, h2, h3, h4] at h; simp at h
            | ok ns =>
              cases h5 : vArrD (path ++ [PathSeg.key "risks"]) vRisk
                  (objLookup fields "risks") with
              | error i5 => simp only [h1, h2, h3, h4, h5] at h; simp at h
              | ok rk =>
                cases h6 : vArrD (path ++ [PathSeg.key "stakeholders"]) vStakeholder
                    (objLookup fields "stakeholders") with
                | error i6 => simp only [h1, h2, h3, h4, h5, h6] at h; simp at h
                | ok sh =>
                  cases h7 : vArrD (path ++ [PathSeg.key "evidence"]) vEvidence
                      (objLookup fields "evidence") with
                  | error i7 => simp only [h1, h2, h3, h4, h5, h6, h7] at h; simp at h
                  | ok ev =>
                    cases h8 : vDateOpt (path ++ [PathSeg.key "last_updated"])
                        (objLookup fields "last_updated") with
                    | error i8 =>
                      simp only [h1, h2, h3, h4, h5, h6, h7, h8] at h
                      simp at h
                    | ok lu =>
                      simp only [h1, h2, h3, h4, h5, h6, h7, h8] at h
                      injection h with h9
                      subst h9
                      constructor
                      · exact vArrD_ok_forall _
                          (fun p v a ha => vNextStep_status ha) h4
                      · exact vArrD_ok_forall _
                          (fun p v a ha => vRisk_severity ha) h5
    | null => simp [vContext] at h
    | bool b => simp [vContext] at h
    | num m => simp [vContext] at h
    | str s => simp [vContext] at h
    | arr xs => simp [vContext] at h

/-- Whatever the validator accepts satisfies the enum invariants the
formatter relies on. -/
theorem safeParse_validEnums {v : JSVal} {x : SummarizeInput}
    (h : safeParseSummarizeInput v = Except.ok x) : validEnums x := by
  cases v with
  | obj fields =>
    simp only [safeParseSummarizeInput] at h
    cases h1 : vStringOpt [PathSeg.key "deal_id"] (objLookup fields "deal_id") with
    | error i1 => simp only [h1] at h; simp at h
    | ok di =>
      cases h2 : vStringOpt [PathSeg.key "deal_name"] (objLookup fields "deal_name") with
      | error i2 => simp only [h1, h2] at h; simp at h
      | ok dn =>
        cases h3 : vStringOpt [PathSeg.key "source_canvas_name"]
            (objLookup fields "source_canvas_name") with
        | error i3 => simp only [h1, h2, h3] at h; simp at h
        | ok sc =>
          cases h4 : vContext [PathSeg.key "context"] (objLookup fields "context") with
          | error i4 => simp only [h1, h2, h3, h4] at h; simp at h
          | ok ctx =>
            cases h5 : vEnum [PathSeg.key "output_format"]
                ["exec_bullets", "se_deal_update", "memo"]
                (objLookup fields "output_format") with
            | error i5 => simp only [h1, h2, h3, h4, h5] at h; simp at h
            | ok fm =>
              cases h6 : vStringOpt [PathSeg.key "doc_title"]
                  (objLookup fields "doc_title") with
              | error i6 => simp only [h1, h2, h3, h4, h5, h6] at h; simp at h
              | ok dt =>
                simp only [h1, h2, h3, h4, h5, h6] at h
                injection h with h7
                subst h7
                exact vContext_enums h4
  | null => simp [safeParseSummarizeInput] at h
  | bool b => simp [safeParseSummarizeInput] at h
  | num m => simp [safeParseSummarizeInput] at h
  | str s => simp [safeParseSummarizeInput] at h
  | arr xs => simp [safeParseSummarizeInput] at h

/-! ## The claims -/

theorem sectionRendering {α : Type} (line : α → String) (items : List α) :
    (if items.length = 0 then "- None"
     else joinLines
       (let limited := limitItems items
        let lines := limited.1.map line
        if limited.2 ≠ 0 then lines ++ [overflowLine limited.2] else lines)) =
    specListSection line items := by
  unfold specListSection
  by_cases h0 : items.length = 0
  · rw [if_pos h0, if_pos h0]
  · rw [if_neg h0, if_neg h0]
    by_cases h8 : items.length ≤ 8
    · rw [if_pos h8]
      have hlim : limitItems items = (items, 0) := by
        unfold limitItems MAX_ITEMS
        rw [if_pos h8]
      rw [hlim]
      simp
    · rw [if_neg h8]
      have hlim : limitItems items = (items.take 8, items.length - 8) := by
        unfold limitItems MAX_ITEMS
        rw [if_neg h8]
      rw [hlim]
      have hne : items.length - 8 ≠ 0 := by omega
      simp only [hne, if_pos (by trivial : items.length - 8 ≠ 0)]
      rfl

/-- C1: the spec declares closed schemas — any unknown property on any
object must be rejected with a violation.  The code uses plain
`z.object`, zod strip mode: an input carrying `unexpected_property` is
accepted and the property is silently dropped from the validated
output, exactly what the spec says the closed schemas guard against. -/
theorem claim_C1_unknown_property_accepted :
    safeParseSummarizeInput (JSVal.obj
      [("context", JSVal.obj [("summary", JSVal.str "Renewal in negotiation"),
        ("unexpected_nested", JSVal.str "kept?")]),
       ("output_format", JSVal.str "memo"),
       ("unexpected_property", JSVal.str "dropped")]) =
    Except.ok ⟨none, none, none,
      ⟨"Renewal in negotiation", [], [], [], [], [], [], none⟩, "memo", none⟩ := by
  rfl

/-- C2: the spec requires strings to be non-empty after trimming, but
`trimmedString` is `z.string().min(1)`, a pure length check: the
whitespace-only summary `" "` is accepted unchanged.  The second
conjunct confirms the true half of the claim: a number in a string
position is rejected, never coerced. -/
theorem claim_C2_whitespace_string_accepted :
    safeParseSummarizeInput (JSVal.obj
      [("context", JSVal.obj [("summary", JSVal.str " ")]),
       ("output_format", JSVal.str "exec_bullets")]) =
    Except.ok ⟨none, none, none, ⟨" ", [], [], [], [], [], [], none⟩,
      "exec_bullets", none⟩ ∧
    safeParseSummarizeInput (JSVal.obj
      [("context", JSVal.obj [("summary", JSVal.num 7)]),
       ("output_format", JSVal.str "exec_bullets")]) =
    Except.error [⟨[PathSeg.key "context", PathSeg.key "summary"],
      "Expected string, received number"⟩] := by
  exact ⟨rfl, rfl⟩

/-- C3: every list-shaped section — key points, open questions, next
steps, risks, stakeholders — renders exactly as the spec describes:
`- None` when empty, all items when at most 8, and the first 8 items
followed by one `- ... (+N more)` overflow line otherwise. -/
theorem claim_C3_section_rendering (ks : List String) (qs : List OpenQuestion)
    (ns : List NextStep) (rs : List Risk) (ss : List Stakeholder) :
    formatList ks = specListSection (fun s => "- " ++ clean s) ks ∧
    formatQuestions qs = specListSection questionLine qs ∧
    formatNextSteps ns = specListSection nextStepLine ns ∧
    formatRisks rs = specListSection riskLine rs ∧
    formatStakeholders ss = specListSection stakeholderLine ss :=
  ⟨sectionRendering _ ks, sectionRendering _ qs, sectionRendering _ ns,
    sectionRendering _ rs, sectionRendering _ ss⟩

/-- C4: for validated requests whose `output_format` is not
`exec_bullets`, the rendered document ends with the fenced JSON block
holding the serialized validated request, and parsing that block
recovers the request's JSON image exactly; for `exec_bullets` no line
of the document opens a fence (no `` ``` `` ever follows a newline). -/
theorem claim_C4_structured_payload (v : JSVal) (x : SummarizeInput)
    (h : safeParseSummarizeInput v = Except.ok x) :
    (x.output_format ≠ "exec_bullets" →
      (∃ q : String, formatSummary x =
        q ++ ("\n\n### Structured Payload (for ETL)\n```json\n" ++
          (stringifyJson (toJson x) ++ "\n```"))) ∧
      jsonParse (stringifyJson (toJson x)) = some (toJson x)) ∧
    (x.output_format = "exec_bullets" →
      hasFence (formatSummary x).data = false) :=
  ⟨fun hne => ⟨formatSummary_fenced x hne, jsonParse_stringifyJson _⟩,
   fun he => formatSummary_exec_noFence x he (safeParse_validEnums h)⟩

/-- Witness for C4 at a concrete validated `memo` request. -/
theorem claim_C4_witness :
    (∃ q : String, formatSummary
        ⟨none, none, none, ⟨"Renewal in negotiation", [], [], [], [], [], [], none⟩,
          "memo", none⟩ =
      q ++ ("\n\n### Structured Payload (for ETL)\n```json\n" ++
        (stringifyJson (toJson ⟨none, none, none,
          ⟨"Renewal in negotiation", [], [], [], [], [], [], none⟩, "memo", none⟩) ++
          "\n```"))) ∧
    jsonParse (stringifyJson (toJson ⟨none, none, none,
      ⟨"Renewal in negotiation", [], [], [], [], [], [], none⟩, "memo", none⟩)) =
    some (toJson ⟨none, none, none,
      ⟨"Renewal in negotiation", [], [], [], [], [], [], none⟩, "memo", none⟩) :=
  (claim_C4_structured_payload
    (JSVal.obj [("context", JSVal.obj [("summary", JSVal.str "Renewal in negotiation")]),
      ("output_format", JSVal.str "memo")])
    ⟨none, none, none, ⟨"Renewal in negotiation", [], [], [], [], [], [], none⟩,
      "memo", none⟩ (by rfl)).1 (by decide)

/-- C8: a batch body is processed element by element in array order —
the response array is exactly the list of non-null per-element
responses, in order, and the recorded webhook calls are the in-order
concatenation of the per-element calls; a batch yielding no responses
produces the empty 204 response. -/
theorem claim_C8_batch_processing (env : Env) (msgs : List JSVal) :
    handlePOSTBody env (JSVal.arr msgs) =
      (if msgs.filterMap (fun m => (handleMessage env m).1) = []
       then HttpOut.noContent
       else HttpOut.batch (msgs.filterMap (fun m => (handleMessage env m).1)),
       (msgs.map (fun m => (handleMessage env m).2)).join) := by
  have hb : ∀ ms : List JSVal, processBatch env ms =
      (ms.filterMap (fun m => (handleMessage env m).1),
       (ms.map (fun m => (handleMessage env m).2)).join) := by
    intro ms
    induction ms with
    | nil => rfl
    | cons m rest ih =>
      simp only [processBatch, ih, List.filterMap_cons, List.map_cons, List.join]
      cases hm : (handleMessage env m).1 with
      | none => simp
      | some resp => simp
    
  show (let rs := processBatch env msgs
    (if rs.1.length = 0 then HttpOut.noContent else HttpOut.batch rs.1, rs.2)) = _
  rw [hb msgs]
  by_cases he : msgs.filterMap (fun m => (handleMessage env m).1) = []
  · rw [if_pos he]
    simp [he]
  · rw [if_neg he]
    simp only [List.length_eq_zero]
    rw [if_neg he]

/-- C5: a `tools/call` of `summarize_context` whose arguments fail
validation produces a tool-level result (not a protocol error) with
`isError` true whose text lists every violation on its own line,
prefixed by the violation's field path — and the webhook call log is
empty: no network side effect happens. -/
theorem claim_C5_validation_failure_is_local (env : Env)
    (fields : List (String × JSVal)) (issues : List Issue)
    (hrpc : objLookup fields "jsonrpc" = some (JSVal.str "2.0"))
    (hmethod : objLookup fields "method" = some (JSVal.str "tools/call"))
    (hid : hasKey fields "id" = true)
    (hname : toolName fields = "summarize_context")
    (hfail : safeParseSummarizeInput (argsVal fields) = Except.error issues) :
    handleMessage env (JSVal.obj fields) =
      (some (RpcResponse.result (coerceJsonRpcId (objLookup fields "id"))
        (ResultPayload.tool ⟨"Validation error:\n" ++
          joinLines (issues.map (fun issue =>
            "- " ++ pathStr issue.path ++ ": " ++ issue.message)), true⟩)), []) := by
  simp [handleMessage, handleToolsCall, hrpc, hmethod, hid, hname, hfail,
    formatZodError,
    (show ("tools/call" : String) ≠ "" by decide),
    (show ("tools/call" : String) ≠ "initialized" by decide),
    (show ("tools/call" : String) ≠ "notifications/initialized" by decide),
    (show ("tools/call" : String) ≠ "initialize" by decide),
    (show ("tools/call" : String) ≠ "tools/list" by decide)]

/-- Witness for C5: empty arguments are missing both required fields;
the response lists both violations and no webhook call is made. -/
theorem claim_C5_witness :
    handleMessage ⟨some ⟨"https://doc", "tok"⟩, Except.ok ⟨200, ""⟩, "h"⟩
      (JSVal.obj [("jsonrpc", JSVal.str "2.0"), ("id", JSVal.num 1),
        ("method", JSVal.str "tools/call"),
        ("params", JSVal.obj [("name", JSVal.str "summarize_context"),
          ("arguments", JSVal.obj [])])]) =
      (some (RpcResponse.result (RpcId.n 1)
        (ResultPayload.tool ⟨"Validation error:\n" ++
          joinLines (([⟨[PathSeg.key "context"], "Required"⟩,
            ⟨[PathSeg.key "output_format"], "Required"⟩] : List Issue).map
            (fun issue => "- " ++ pathStr issue.path ++ ": " ++ issue.message)),
          true⟩)), []) :=
  claim_C5_validation_failure_is_local
    ⟨some ⟨"https://doc", "tok"⟩, Except.ok ⟨200, ""⟩, "h"⟩
    [("jsonrpc", JSVal.str "2.0"), ("id", JSVal.num 1),
      ("method", JSVal.str "tools/call"),
      ("params", JSVal.obj [("name", JSVal.str "summarize_context"),
        ("arguments", JSVal.obj [])])]
    [⟨[PathSeg.key "context"], "Required"⟩,
     ⟨[PathSeg.key "output_format"], "Required"⟩]
    rfl rfl rfl rfl rfl

/-- C9: a validated `summarize_context` call returns only the push
status and the chosen title — `doc_title`, else `deal_name`, else
`deal_id`, else the fixed fallback — never the rendered Markdown, and
`isError` is false exactly when the push succeeded. -/
theorem claim_C9_success_reports_status_and_title (env : Env)
    (fields : List (String × JSVal)) (x : SummarizeInput)
    (hrpc : objLookup fields "jsonrpc" = some (JSVal.str "2.0"))
    (hmethod : objLookup fields "method" = some (JSVal.str "tools/call"))
    (hid : hasKey fields "id" = true)
    (hname : toolName fields = "summarize_context")
    (hok : safeParseSummarizeInput (argsVal fields) = Except.ok x) :
    ((pushSummaryToDocWebhook env (chosenTitle x) (formatSummary x)).1 =
        PushResult.ok →
      handleMessage env (JSVal.obj fields) =
        (some (RpcResponse.result (coerceJsonRpcId (objLookup fields "id"))
          (ResultPayload.tool ⟨"Doc push: ok\nTitle: " ++ chosenTitle x, false⟩)),
         (pushSummaryToDocWebhook env (chosenTitle x) (formatSummary x)).2)) ∧
    (∀ e, (pushSummaryToDocWebhook env (chosenTitle x) (formatSummary x)).1 =
        PushResult.failed e →
      handleMessage env (JSVal.obj fields) =
        (some (RpcResponse.result (coerceJsonRpcId (objLookup fields "id"))
          (ResultPayload.tool ⟨"Doc push: failed\n" ++ e, true⟩)),
         (pushSummaryToDocWebhook env (chosenTitle x) (formatSummary x)).2)) ∧
    chosenTitle x = (match x.doc_title with
      | some t => t
      | none =>
        match x.deal_name with
        | some t => t
        | none =>
          match x.deal_id with
          | some t => t
          | none => "CanvasETL Summary") := by
  refine ⟨fun hpush => ?_, fun e hpush => ?_, rfl⟩
  · simp [handleMessage, handleToolsCall, hrpc, hmethod, hid, hname, hok, hpush,
    (show ("tools/call" : String) ≠ "" by decide),
    (show ("tools/call" : String) ≠ "initialized" by decide),
    (show ("tools/call" : String) ≠ "notifications/initialized" by decide),
    (show ("tools/call" : String) ≠ "initialize" by decide),
    (show ("tools/call" : String) ≠ "tools/list" by decide)]
  · simp [handleMessage, handleToolsCall, hrpc, hmethod, hid, hname, hok, hpush,
    (show ("tools/call" : String) ≠ "" by decide),
    (show ("tools/call" : String) ≠ "initialized" by decide),
    (show ("tools/call" : String) ≠ "notifications/initialized" by decide),
    (show ("tools/call" : String) ≠ "initialize" by decide),
    (show ("tools/call" : String) ≠ "tools/list" by decide)]

/-- Witness for C9: with no webhook configuration the push fails with
the distinct not-configured error, `isError` is true, and the text is
the push status only. -/
theorem claim_C9_witness :
    handleMessage ⟨none, Except.error "E", "h"⟩
      (JSVal.obj [("jsonrpc", JSVal.str "2.0"), ("id", JSVal.num 1),
        ("method", JSVal.str "tools/call"),
        ("params", JSVal.obj [("name", JSVal.str "summarize_context"),
          ("arguments", JSVal.obj [("context", JSVal.obj
            [("summary", JSVal.str "Renewal in negotiation")]),
            ("output_format", JSVal.str "exec_bullets")])])]) =
      (some (RpcResponse.result (RpcId.n 1)
        (ResultPayload.tool ⟨"Doc push: failed\n" ++
          "DOC_WEBHOOK_URL / DOC_WEBHOOK_TOKEN not configured.", true⟩)), []) :=
  (claim_C9_success_reports_status_and_title
    ⟨none, Except.error "E", "h"⟩
    [("jsonrpc", JSVal.str "2.0"), ("id", JSVal.num 1),
      ("method", JSVal.str "tools/call"),
      ("params", JSVal.obj [("name", JSVal.str "summarize_context"),
        ("arguments", JSVal.obj [("context", JSVal.obj
          [("summary", JSVal.str "Renewal in negotiation")]),
          ("output_format", JSVal.str "exec_bullets")])])]
    ⟨none, none, none, ⟨"Renewal in negotiation", [], [], [], [], [], [], none⟩,
      "exec_bullets", none⟩
    rfl rfl rfl rfl rfl).2.1 _ rfl

/-- C10: on a `tools/call` with an id, absent or non-object `params`
and `params.arguments` are replaced by empty objects; a missing or
non-string `params.name` yields the tool-level result
`"Validation error: tool name is required."` with `isError` true, never
a protocol-level error; and with `arguments` defaulted to `{}` the
summarize tool proceeds into validation, reporting the two missing
required fields. -/
theorem claim_C10_tool_call_defaults (env : Env)
    (fields : List (String × JSVal))
    (hrpc : objLookup fields "jsonrpc" = some (JSVal.str "2.0"))
    (hmethod : objLookup fields "method" = some (JSVal.str "tools/call"))
    (hid : hasKey fields "id" = true) :
    ((∀ s : String, objLookup (paramsFields fields) "name" ≠ some (JSVal.str s)) →
      handleMessage env (JSVal.obj fields) =
        (some (RpcResponse.result (coerceJsonRpcId (objLookup fields "id"))
          (ResultPayload.tool ⟨"Validation error: tool name is required.", true⟩)),
         [])) ∧
    (toolName fields = "summarize_context" →
      (∀ o : List (String × JSVal),
        objLookup (paramsFields fields) "arguments" ≠ some (JSVal.obj o)) →
      handleMessage env (JSVal.obj fields) =
        (some (RpcResponse.result (coerceJsonRpcId (objLookup fields "id"))
          (ResultPayload.tool ⟨"Validation error:\n" ++ formatZodError
            [⟨[PathSeg.key "context"], "Required"⟩,
             ⟨[PathSeg.key "output_format"], "Required"⟩], true⟩)), [])) := by
  constructor
  · intro hno
    have hname0 : toolName fields = "" := by
      unfold toolName
      cases hl : objLookup (paramsFields fields) "name" with
      | none => rfl
      | some v =>
        cases v with
        | str s => exact absurd hl (hno s)
        | null => rfl
        | bool b => rfl
        | num n => rfl
        | arr xs => rfl
        | obj o => rfl
    simp [handleMessage, handleToolsCall, hrpc, hmethod, hid, hname0,
    (show ("tools/call" : String) ≠ "" by decide),
    (show ("tools/call" : String) ≠ "initialized" by decide),
    (show ("tools/call" : String) ≠ "notifications/initialized" by decide),
    (show ("tools/call" : String) ≠ "initialize" by decide),
    (show ("tools/call" : String) ≠ "tools/list" by decide)]
  · intro hname hnoargs
    have hargs : argsVal fields = JSVal.obj [] := by
      unfold argsVal
      cases hl : objLookup (paramsFields fields) "arguments" with
      | none => rfl
      | some v =>
        cases v with
        | str s => rfl
        | null => rfl
        | bool b => rfl
        | num n => rfl
        | arr xs => rfl
        | obj o => exact absurd hl (hnoargs o)
    have hfail : safeParseSummarizeInput (argsVal fields) = Except.error
        [⟨[PathSeg.key "context"], "Required"⟩,
         ⟨[PathSeg.key "output_format"], "Required"⟩] := by
      rw [hargs]
      rfl
    simp [handleMessage, handleToolsCall, hrpc, hmethod, hid, hname, hfail,
    (show ("tools/call" : String) ≠ "" by decide),
    (show ("tools/call" : String) ≠ "initialized" by decide),
    (show ("tools/call" : String) ≠ "notifications/initialized" by decide),
    (show ("tools/call" : String) ≠ "initialize" by decide),
    (show ("tools/call" : String) ≠ "tools/list" by decide)]

/-- Witness for C10 at a concrete envelope with numeric `params`. -/
theorem claim_C10_witness :
    handleMessage ⟨none, Except.error "E", "h"⟩
      (JSVal.obj [("jsonrpc", JSVal.str "2.0"), ("id", JSVal.num 9),
        ("method", JSVal.str "tools/call"), ("params", JSVal.num 3)]) =
      (some (RpcResponse.result (RpcId.n 9)
        (ResultPayload.tool ⟨"Validation error: tool name is required.", true⟩)),
       []) :=
  (claim_C10_tool_call_defaults ⟨none, Except.error "E", "h"⟩
    [("jsonrpc", JSVal.str "2.0"), ("id", JSVal.num 9),
      ("method", JSVal.str "tools/call"), ("params", JSVal.num 3)]
    rfl rfl rfl).1 (fun s h => by simp [paramsFields, objLookup] at h)

/-- C6: the pusher fails immediately with the distinct not-configured
error and performs no network I/O when the URL or token is absent;
otherwise it issues exactly one POST, succeeds exactly for HTTP status
200–399, reports other statuses with a diagnostic carrying at most the
first 300 characters of the response body (a prefix of it), and
surfaces a transport failure verbatim. -/
theorem claim_C6_webhook_pusher (env : Env) (title text : String) :
    (env.config = none →
      pushSummaryToDocWebhook env title text =
        (PushResult.failed "DOC_WEBHOOK_URL / DOC_WEBHOOK_TOKEN not configured.",
         [])) ∧
    (∀ cfg, env.config = some cfg →
      (pushSummaryToDocWebhook env title text).2 =
        [⟨cfg.url, cfg.token, title, text⟩] ∧
      ((pushSummaryToDocWebhook env title text).1 = PushResult.ok ↔
        ∃ res, env.fetchResult = Except.ok res ∧
          200 ≤ res.status ∧ res.status < 400) ∧
      (∀ res, env.fetchResult = Except.ok res →
        ¬(200 ≤ res.status ∧ res.status < 400) →
        (pushSummaryToDocWebhook env title text).1 =
          PushResult.failed ("Webhook HTTP " ++ natStr res.status ++ ": " ++
            strTake res.body 300) ∧
        (strTake res.body 300).data.length ≤ 300 ∧
        (strTake res.body 300).data <+: res.body.data) ∧
      (∀ e, env.fetchResult = Except.error e →
        (pushSummaryToDocWebhook env title text).1 = PushResult.failed e)) := by
  constructor
  · intro hc
    simp [pushSummaryToDocWebhook, hc]
  · intro cfg hc
    refine ⟨?_, ⟨?_, ?_⟩, ?_, ?_⟩
    · cases hf : env.fetchResult with
      | error e => simp [pushSummaryToDocWebhook, hc, hf]
      | ok res =>
        by_cases hs : 200 ≤ res.status ∧ res.status < 400
        · simp [pushSummaryToDocWebhook, hc, hf, hs]
        · simp [pushSummaryToDocWebhook, hc, hf, hs]
    · intro hok
      cases hf : env.fetchResult with
      | error e =>
        rw [show pushSummaryToDocWebhook env title text =
          (PushResult.failed e, [⟨cfg.url, cfg.token, title, text⟩]) from by
            simp [pushSummaryToDocWebhook, hc, hf]] at hok
        simp at hok
      | ok res =>
        by_cases hs : 200 ≤ res.status ∧ res.status < 400
        · exact ⟨res, rfl, hs⟩
        · rw [show pushSummaryToDocWebhook env title text =
            (PushResult.failed ("Webhook HTTP " ++ natStr res.status ++ ": " ++
              strTake res.body 300), [⟨cfg.url, cfg.token, title, text⟩]) from by
              simp [pushSummaryToDocWebhook, hc, hf, hs]] at hok
          simp at hok
    · rintro ⟨res, hf, hs⟩
      simp [pushSummaryToDocWebhook, hc, hf, hs]
    · intro res hf hs
      refine ⟨by simp [pushSummaryToDocWebhook, hc, hf, hs], ?_, ?_⟩
      · simp [strTake]
      · simpa [strTake] using List.take_prefix 300 res.body.data
    · intro e hf
      simp [pushSummaryToDocWebhook, hc, hf]

/-- Witness for C6: a configured pusher seeing a 302 redirect response
succeeds and records exactly the one POST it made. -/
theorem claim_C6_witness :
    (pushSummaryToDocWebhook
      ⟨some ⟨"https://doc", "tok"⟩, Except.ok ⟨302, "Found"⟩, "h"⟩ "T" "B").1 =
      PushResult.ok ∧
    (pushSummaryToDocWebhook
      ⟨some ⟨"https://doc", "tok"⟩, Except.ok ⟨302, "Found"⟩, "h"⟩ "T" "B").2 =
      [⟨"https://doc", "tok", "T", "B"⟩] :=
  ⟨(((claim_C6_webhook_pusher
      ⟨some ⟨"https://doc", "tok"⟩, Except.ok ⟨302, "Found"⟩, "h"⟩ "T" "B").2
      ⟨"https://doc", "tok"⟩ rfl).2.1).mpr ⟨⟨302, "Found"⟩, rfl, by decide, by decide⟩,
   ((claim_C6_webhook_pusher
      ⟨some ⟨"https://doc", "tok"⟩, Except.ok ⟨302, "Found"⟩, "h"⟩ "T" "B").2
      ⟨"https://doc", "tok"⟩ rfl).1⟩

/-- C7 as stated is false on the code: an id-less envelope whose method
is the empty string — a string, and not an `initialized` variant — is
answered with a `-32600` protocol error rather than dropped. -/
theorem claim_C7_counterexample :
    ((handleMessage ⟨none, Except.error "E", "h"⟩
      (JSVal.obj [("jsonrpc", JSVal.str "2.0"),
        ("method", JSVal.str "")])).1).isSome = true := rfl

/-- C7 amended: with the empty-string method treated as a missing
method (answered with `-32600` even without an id), the notification
semantics hold: an id-less envelope with a non-empty method other than
the two `initialized` variants gets no response; an envelope with an id
always gets a response — `-32601` when the method is unrecognized —
and the `initialized` variants respond exactly when an id was
supplied. -/
theorem claim_C7_notification_semantics (env : Env)
    (fields : List (String × JSVal)) (m : String)
    (hrpc : objLookup fields "jsonrpc" = some (JSVal.str "2.0"))
    (hmethod : objLookup fields "method" = some (JSVal.str m)) :
    (hasKey fields "id" = false → m ≠ "" → m ≠ "initialized" →
      m ≠ "notifications/initialized" →
      (handleMessage env (JSVal.obj fields)).1 = none) ∧
    (hasKey fields "id" = true →
      ((handleMessage env (JSVal.obj fields)).1).isSome = true) ∧
    (hasKey fields "id" = true →
      m ∉ ["", "initialize", "tools/list", "tools/call", "initialized",
        "notifications/initialized"] →
      (handleMessage env (JSVal.obj fields)).1 =
        some (RpcResponse.err (coerceJsonRpcId (objLookup fields "id")) (-32601)
          "Method not found" (ErrData.forMethod m))) ∧
    ((m = "initialized" ∨ m = "notifications/initialized") →
      ((handleMessage env (JSVal.obj fields)).1 ≠ none ↔
        hasKey fields "id" = true)) := by
  refine ⟨?_, ?_, ?_, ?_⟩
  · intro hid hne1 hne2 hne3
    simp [handleMessage, hrpc, hmethod, hid, hne1, hne2, hne3]
  · intro hid
    by_cases h1 : m = ""
    · simp [handleMessage, hrpc, hmethod, hid, h1]
    by_cases h2 : m = "initialized" ∨ m = "notifications/initialized"
    · rcases h2 with rfl | rfl <;>
        simp [handleMessage, hrpc, hmethod, hid,
          (show ("initialized" : String) ≠ "" by decide),
          (show ("notifications/initialized" : String) ≠ "" by decide)]
    by_cases h3 : m = "initialize"
    · subst h3
      simp [handleMessage, hrpc, hmethod, hid,
        (show ("initialize" : String) ≠ "" by decide),
        (show ("initialize" : String) ≠ "initialized" by decide),
        (show ("initialize" : String) ≠ "notifications/initialized" by decide)]
    by_cases h4 : m = "tools/list"
    · subst h4
      simp [handleMessage, hrpc, hmethod, hid,
        (show ("tools/list" : String) ≠ "" by decide),
        (show ("tools/list" : String) ≠ "initialized" by decide),
        (show ("tools/list" : String) ≠ "notifications/initialized" by decide),
        (show ("tools/list" : String) ≠ "initialize" by decide)]
    by_cases h5 : m = "tools/call"
    · have htc : ((handleToolsCall env
          (coerceJsonRpcId (objLookup fields "id")) fields).1).isSome = true := by
        unfold handleToolsCall
        by_cases hn1 : toolName fields = ""
        · simp [hn1]
        rw [if_neg hn1]
        by_cases hn2 : toolName fields = "healthcheck"
        · simp [hn2]
        rw [if_neg hn2]
        by_cases hn3 : toolName fields = "summarize_context"
        · rw [if_pos hn3]
          cases hp : safeParseSummarizeInput (argsVal fields) with
          | error issues => simp
          | ok parsed =>
            cases hpp : (pushSummaryToDocWebhook env (chosenTitle parsed)
                (formatSummary parsed)).1 with
            | ok => simp [hpp]
            | failed e => simp [hpp]
        · rw [if_neg hn3]
          simp
      subst h5
      simp [handleMessage, hrpc, hmethod, hid, htc,
        (show ("tools/call" : String) ≠ "" by decide),
        (show ("tools/call" : String) ≠ "initialized" by decide),
        (show ("tools/call" : String) ≠ "notifications/initialized" by decide),
        (show ("tools/call" : String) ≠ "initialize" by decide),
        (show ("tools/call" : String) ≠ "tools/list" by decide)]
    · simp [handleMessage, hrpc, hmethod, hid, h1, h2, h3, h4, h5]
  · intro hid hnotin
    simp only [List.mem_cons, List.not_mem_nil, or_false, not_or] at hnotin
    obtain ⟨h1, h3, h4, h5, h2a, h2b⟩ := hnotin
    have h2 : ¬(m = "initialized" ∨ m = "notifications/initialized") := by
      rintro (rfl | rfl)
      · exact h2a rfl
      · exact h2b rfl
    simp [handleMessage, hrpc, hmethod, hid, h1, h2, h3, h4, h5]
  · rintro (rfl | rfl)
    · cases hk : hasKey fields "id" with
      | true => simp [handleMessage, hrpc, hmethod, hk,
          (show ("initialized" : String) ≠ "" by decide)]
      | false => simp [handleMessage, hrpc, hmethod, hk,
          (show ("initialized" : String) ≠ "" by decide)]
    · cases hk : hasKey fields "id" with
      | true => simp [handleMessage, hrpc, hmethod, hk,
          (show ("notifications/initialized" : String) ≠ "" by decide)]
      | false => simp [handleMessage, hrpc, hmethod, hk,
          (show ("notifications/initialized" : String) ≠ "" by decide)]

/-- Witness for the amended C7: the id-less envelope with method
`"ping"` is silently dropped, while adding an id to the same envelope
yields the `-32601` Method-not-found error. -/
theorem claim_C7_witness :
    (handleMessage ⟨none, Except.error "E", "h"⟩
      (JSVal.obj [("jsonrpc", JSVal.str "2.0"),
        ("method", JSVal.str "ping")])).1 = none ∧
    (handleMessage ⟨none, Except.error "E", "h"⟩
      (JSVal.obj [("jsonrpc", JSVal.str "2.0"), ("id", JSVal.num 7),
        ("method", JSVal.str "ping")])).1 =
      some (RpcResponse.err (RpcId.n 7) (-32601) "Method not found"
        (ErrData.forMethod "ping")) :=
  ⟨(claim_C7_notification_semantics ⟨none, Except.error "E", "h"⟩
      [("jsonrpc", JSVal.str "2.0"), ("method", JSVal.str "ping")] "ping"
      rfl rfl).1 rfl (by decide) (by decide) (by decide),
   (claim_C7_notification_semantics ⟨none, Except.error "E", "h"⟩
      [("jsonrpc", JSVal.str "2.0"), ("id", JSVal.num 7),
        ("method", JSVal.str "ping")] "ping" rfl rfl).2.2.1 rfl (by decide)⟩

end CanvasETL